import Mathlib

/-!
A shallow embedding of go-valid, the struct-validation engine.

Sources embedded here:

* `internal/rules/required.go`  : `Required`
* `internal/rules/length.go`    : `MinLength`, `MaxLength`
* `internal/rules/rules.go`     : `PasswordRules`, `DefaultPasswordRules`, `Email`, `Password`
* `internal/validator/validator.go` : `ValidationErrors`, `Validator`, `Validate`,
  `structValidate`, `parsePasswordRules`

Conventions.

* A Go `error` is its message: `Option String`, `none` being `nil`.
* A Go `string` is a Lean `String`; `len` is the UTF-8 byte count, `range` walks code points.
* A Go `int` is an `Int`; the platform is taken to be 64-bit, which only shows in the value
  `strconv.Atoi` hands back next to a range error.
* A `reflect.Value` is a `Value`: its kind, its type name, and exactly the payload that the
  library can observe through `Kind`, `Len`, `IsNil`, `String`, `Interface` and `DeepEqual`.
  The read-only flag of a `reflect.Value`, set on what is reached through an unexported
  field, travels next to the `Value`; `Interface` panics when it is set.
* A call that a panic ends is `Outcome.panics`; a panic in a field goroutine is not recovered
  and ends the program, so it ends `Validate`.
* The aggregate `*validationErrors` is threaded through the traversal as explicit state.
  `structValidate` is the schedule in which the goroutines of one record run one after the
  other in field order; `StructRun` describes every schedule the mutex admits.
* `ValidatorState` carries the fields of the validator itself, the mutex and the stored
  policy, through the same methods, for what a call leaves behind.
-/

namespace GoValid

/-! ## `reflect` -/

/-- The kinds of `reflect.Kind`, in declaration order. -/
inductive Kind where
  | invalid | bool
  | int | int8 | int16 | int32 | int64
  | uint | uint8 | uint16 | uint32 | uint64 | uintptr
  | float32 | float64 | complex64 | complex128
  | array | chan | func | interface | map | ptr | slice | string | struct | unsafePointer
  deriving DecidableEq, Repr

/-- The text of `reflect.Kind.String`, which is what `%v` prints for a kind. -/
def Kind.toString : Kind → String
  | .invalid => "invalid" | .bool => "bool"
  | .int => "int" | .int8 => "int8" | .int16 => "int16" | .int32 => "int32" | .int64 => "int64"
  | .uint => "uint" | .uint8 => "uint8" | .uint16 => "uint16" | .uint32 => "uint32"
  | .uint64 => "uint64" | .uintptr => "uintptr"
  | .float32 => "float32" | .float64 => "float64"
  | .complex64 => "complex64" | .complex128 => "complex128"
  | .array => "array" | .chan => "chan" | .func => "func" | .interface => "interface"
  | .map => "map" | .ptr => "ptr" | .slice => "slice" | .string => "string"
  | .struct => "struct" | .unsafePointer => "unsafe.Pointer"

/-- The integer kinds. -/
inductive IntKind where
  | int | int8 | int16 | int32 | int64
  | uint | uint8 | uint16 | uint32 | uint64 | uintptr
  deriving DecidableEq, Repr

/-- The floating-point and complex kinds. -/
inductive FloatKind where
  | float32 | float64 | complex64 | complex128
  deriving DecidableEq, Repr

/-- The kinds whose only observable content is whether the value is nil. -/
inductive RefKind where
  | chan | func | unsafePointer
  deriving DecidableEq, Repr

def IntKind.toKind : IntKind → Kind
  | .int => .int | .int8 => .int8 | .int16 => .int16 | .int32 => .int32 | .int64 => .int64
  | .uint => .uint | .uint8 => .uint8 | .uint16 => .uint16 | .uint32 => .uint32
  | .uint64 => .uint64 | .uintptr => .uintptr

def FloatKind.toKind : FloatKind → Kind
  | .float32 => .float32 | .float64 => .float64
  | .complex64 => .complex64 | .complex128 => .complex128

def RefKind.toKind : RefKind → Kind
  | .chan => .chan | .func => .func | .unsafePointer => .unsafePointer

mutual
/-- A `reflect.Value`. `typ` is the text of the value's type (`"string"`, `"int"`,
`"main.Address"`, ...); a defined type never prints as a bare predeclared name.
For a slice or a map the payload is `none` when it is nil and its length otherwise;
for a float only whether it compares equal to zero is kept. -/
inductive Value where
  | invalid
  | bool (typ : String) (b : Bool)
  | int (k : IntKind) (typ : String) (n : Int)
  | float (k : FloatKind) (typ : String) (isZero : Bool)
  | str (typ : String) (s : String)
  | slice (typ : String) (len : Option Nat)
  | map (typ : String) (len : Option Nat)
  | array (typ : String) (elems : List Value)
  | ptr (typ : String) (elem : Option Value)
  | iface (typ : String) (dyn : Option Value)
  | ref (k : RefKind) (typ : String) (isNil : Bool)
  | struct (typ : String) (fields : List Field)
/-- One field of a record as `reflect` shows it: `Type().Field(i).Name`, the `validate` and
`json` entries of its tag, whether the field is exported (`IsExported`) and whether it is
embedded (`Anonymous`), and `Field(i)`. -/
inductive Field where
  | mk (Name : String) (validate : String) (json : String) (exported : Bool)
      (embedded : Bool) (value : Value)
end

def Field.Name : Field → String
  | .mk n _ _ _ _ _ => n

/-- Go: `fieldType.Tag.Get("validate")`. -/
def Field.tag : Field → String
  | .mk _ t _ _ _ _ => t

/-- Go: `fieldType.Tag.Get("json")`. -/
def Field.jsonTag : Field → String
  | .mk _ _ j _ _ _ => j

/-- Go: `fieldType.IsExported()`. -/
def Field.exported : Field → Bool
  | .mk _ _ _ e _ _ => e

/-- Go: `fieldType.Anonymous`. -/
def Field.embedded : Field → Bool
  | .mk _ _ _ _ a _ => a

def Field.value : Field → Value
  | .mk _ _ _ _ _ v => v

/-- What a call comes to: it returns a value, or a panic ends it. -/
inductive Outcome (α : Type) where
  | returns (a : α)
  | panics
  deriving DecidableEq, Repr

/-- Go: `reflect.Value.Kind`. -/
def Value.Kind : Value → Kind
  | .invalid => .invalid
  | .bool _ _ => .bool
  | .int k _ _ => k.toKind
  | .float k _ _ => k.toKind
  | .str _ _ => .string
  | .slice _ _ => .slice
  | .map _ _ => .map
  | .array _ _ => .array
  | .ptr _ _ => .ptr
  | .iface _ _ => .interface
  | .ref k _ _ => k.toKind
  | .struct _ _ => .struct

/-- Go: `reflect.Value.Len` on the kinds the rules call it on (string, slice, map, array):
the byte count of a string, the number of elements otherwise; a nil slice or map has length 0. -/
def Value.Len : Value → Nat
  | .str _ s => s.utf8ByteSize
  | .slice _ l => l.getD 0
  | .map _ l => l.getD 0
  | .array _ es => es.length
  | _ => 0

/-- Go: `reflect.Value.IsNil` on the kinds the rules call it on (pointer, interface). -/
def Value.IsNil : Value → Bool
  | .ptr _ e => e.isNone
  | .iface _ d => d.isNone
  | _ => false

/-- Go: `reflect.Value.String`: the string itself for a string kind, `<T Value>` otherwise. -/
def Value.Str : Value → String
  | .str _ s => s
  | .invalid => "<invalid Value>"
  | .bool typ _ | .int _ typ _ | .float _ typ _ | .slice typ _ | .map typ _ | .array typ _
  | .ptr typ _ | .iface typ _ | .ref _ typ _ | .struct typ _ => "<" ++ typ ++ " Value>"

/-- The type assertion `field.Interface().(string)`: it holds when the dynamic type is the
predeclared `string`; `Interface` on an interface-kind value yields what the interface
holds. -/
def Value.assertString : Value → Option String
  | .str typ s => if typ = "string" then some s else none
  | .iface _ (some (.str typ s)) => if typ = "string" then some s else none
  | _ => none

mutual
/-- Go: `reflect.DeepEqual(x.Interface(), reflect.Zero(x.Type()).Interface())`: whether a
value is deeply equal to the zero value of its own type. -/
def Value.isZero : Value → Bool
  | .invalid => true
  | .bool _ b => !b
  | .int _ _ n => n == 0
  | .float _ _ z => z
  | .str _ s => s == ""
  | .slice _ l => l.isNone
  | .map _ l => l.isNone
  | .array _ es => Value.allZero es
  | .ptr _ e => e.isNone
  | .iface _ d => d.isNone
  | .ref _ _ isNil => isNil
  | .struct _ fs => Field.allZero fs
/-- Every element of an array is deeply equal to zero. -/
def Value.allZero : List Value → Bool
  | [] => true
  | v :: vs => v.isZero && Value.allZero vs
/-- Every field of a record is deeply equal to zero. -/
def Field.allZero : List Field → Bool
  | [] => true
  | .mk _ _ _ _ _ v :: fs => v.isZero && Field.allZero fs
end

/-- Whether `field.Interface()` returns: it panics on a value with the read-only flag and on
the zero `Value`. -/
def Value.CanInterface (flagRO : Bool) (field : Value) : Bool :=
  ! flagRO && field.Kind != .invalid

/-! ## `strings`, `strconv`, `fmt` -/

/-- Splitting a character sequence at every occurrence of a separator character. -/
def splitChars (sep : Char) : List Char → List (List Char)
  | [] => [[]]
  | c :: cs =>
    if c = sep then [] :: splitChars sep cs
    else
      match splitChars sep cs with
      | [] => [[c]]
      | p :: ps => (c :: p) :: ps

/-- Go: `strings.Split(s, sep)` for a one-character separator. -/
def Split (s : String) (sep : Char) : List String :=
  (splitChars sep s.data).map String.mk

/-- Cutting a character sequence at the first occurrence of a separator character. -/
def cutChars (sep : Char) : List Char → Option (List Char × List Char)
  | [] => none
  | c :: cs =>
    if c = sep then some ([], cs)
    else
      match cutChars sep cs with
      | none => none
      | some (a, b) => some (c :: a, b)

/-- Go: `strings.SplitN(s, sep, 2)` for a one-character separator: the whole string when the
separator does not occur, otherwise what precedes and what follows its first occurrence. -/
def SplitN2 (s : String) (sep : Char) : List String :=
  match cutChars sep s.data with
  | none => [s]
  | some (a, b) => [String.mk a, String.mk b]

/-- Go: `strings.Join(elems, "\n")`. -/
def JoinNewline : List String → String
  | [] => ""
  | [s] => s
  | s :: t :: rest => s ++ "\n" ++ JoinNewline (t :: rest)

/-- Go: `strings.Contains(s, substr)`. -/
def Contains (s substr : String) : Prop := substr.data <:+: s.data

instance (s substr : String) : Decidable (Contains s substr) := by
  unfold Contains; infer_instance

/-- The two failures of `strconv`. -/
inductive NumError where
  | ErrSyntax | ErrRange
  deriving DecidableEq, Repr

def maxUint64 : Nat := 18446744073709551615
def maxInt64 : Int := 9223372036854775807
def minInt64 : Int := -9223372036854775808

/-- The digit loop of `strconv.ParseUint(s, 10, 64)`: a character that is not a decimal digit
is a syntax error with value 0; an overflow is a range error with the largest value,
reported where it is met. -/
def parseUintLoop : List Char → Nat → Nat × Option NumError
  | [], n => (n, none)
  | c :: cs, n =>
    if '0' ≤ c ∧ c ≤ '9' then
      if n ≥ maxUint64 / 10 + 1 then (maxUint64, some .ErrRange)
      else
        let n1 := n * 10 + (c.toNat - '0'.toNat)
        if n1 > maxUint64 then (maxUint64, some .ErrRange)
        else parseUintLoop cs n1
    else (0, some .ErrSyntax)

/-- Go: `strconv.ParseUint(s, 10, 64)`. -/
def ParseUint (s : List Char) : Nat × Option NumError :=
  match s with
  | [] => (0, some .ErrSyntax)
  | _ => parseUintLoop s 0

/-- The function `strconv.Atoi(s)`, that is `ParseInt(s, 10, 0)` on a 64-bit platform: an
optional sign and decimal digits. On a syntax error the value is 0; a magnitude that does
not fit (which includes the largest value `ParseUint` hands back on overflow) is a range
error with the largest magnitude of that sign. -/
def Atoi (s : String) : Int × Option NumError :=
  match s.data with
  | [] => (0, some .ErrSyntax)
  | c :: cs =>
    let neg := c = '-'
    let digits := if c = '+' ∨ c = '-' then cs else c :: cs
    match ParseUint digits with
    | (_, some .ErrSyntax) => (0, some .ErrSyntax)
    | (un, _) =>
      if ¬ neg ∧ un ≥ 9223372036854775808 then (maxInt64, some .ErrRange)
      else if neg ∧ un > 9223372036854775808 then (minInt64, some .ErrRange)
      else (if neg then - (un : Int) else (un : Int), none)

/-- Go: `strconv.ParseBool(str)`. -/
def ParseBool (str : String) : Bool × Option NumError :=
  if str = "1" ∨ str = "t" ∨ str = "T" ∨ str = "TRUE" ∨ str = "true" ∨ str = "True" then
    (true, none)
  else if str = "0" ∨ str = "f" ∨ str = "F" ∨ str = "FALSE" ∨ str = "false"
      ∨ str = "False" then
    (false, none)
  else (false, some .ErrSyntax)

/-- The verb `%d` of `fmt` on an `int`. -/
def fmtInt (n : Int) : String := toString n

/-! ## `regexp` -/

/-- Regular expressions over characters, as far as the e-mail pattern needs them. -/
inductive Regex where
  | empty
  | eps
  | cls (p : Char → Bool)
  | alt (a b : Regex)
  | concat (a b : Regex)
  | star (a : Regex)

/-- Whether the expression accepts the empty text. -/
def Regex.nullable : Regex → Bool
  | .empty => false
  | .eps => true
  | .cls _ => false
  | .alt a b => a.nullable || b.nullable
  | .concat a b => a.nullable && b.nullable
  | .star _ => true

/-- The expression for what may follow the character `c`. -/
def Regex.deriv (c : Char) : Regex → Regex
  | .empty => .empty
  | .eps => .empty
  | .cls p => if p c then .eps else .empty
  | .alt a b => .alt (a.deriv c) (b.deriv c)
  | .concat a b =>
    if a.nullable then .alt (.concat (a.deriv c) b) (b.deriv c)
    else .concat (a.deriv c) b
  | .star a => .concat (a.deriv c) (.star a)

/-- The expression `x+`. -/
def Regex.plus (a : Regex) : Regex := .concat a (.star a)

/-- The expression `x{2,}`. -/
def Regex.atLeastTwo (a : Regex) : Regex := .concat a (.concat a (.star a))

/-- A single literal character. -/
def Regex.chr (c : Char) : Regex := .cls (fun d => d = c)

/-- Go: `regexp.MatchString` for a pattern of the form `^r$` without flags: the whole text
is in the language of `r`. -/
def Regex.MatchString (r : Regex) (s : String) : Bool :=
  (s.data.foldl (fun q c => q.deriv c) r).nullable

/-- The class `[a-zA-Z]`. -/
def isLetter (c : Char) : Bool :=
  (decide ('a' ≤ c) && decide (c ≤ 'z')) || (decide ('A' ≤ c) && decide (c ≤ 'Z'))

/-- The class `[0-9]`. -/
def isDigit (c : Char) : Bool := decide ('0' ≤ c) && decide (c ≤ '9')

/-- The class `[a-zA-Z0-9._%+-]`. -/
def isLocalChar (c : Char) : Bool :=
  isLetter c || isDigit c || c = '.' || c = '_' || c = '%' || c = '+' || c = '-'

/-- The class `[a-zA-Z0-9.-]`. -/
def isDomainChar (c : Char) : Bool :=
  isLetter c || isDigit c || c = '.' || c = '-'

/-- The pattern `^[a-zA-Z0-9._%+-]+@[a-zA-Z0-9.-]+\.[a-zA-Z]{2,}$` between its anchors. -/
def emailRegex : Regex :=
  .concat (Regex.plus (.cls isLocalChar))
    (.concat (Regex.chr '@')
      (.concat (Regex.plus (.cls isDomainChar))
        (.concat (Regex.chr '.') (Regex.atLeastTwo (.cls isLetter)))))

/-! ## `internal/rules` -/

/-- Go: `rules.Required`, on a `reflect.Value` with its read-only flag. The default branch
calls `field.Type()` and `field.Interface()`, which panic on the zero `Value` and on a value
reached through an unexported field. -/
def Required (flagRO : Bool) (field : Value) : Outcome (Option String) :=
  match field.Kind with
  | .string | .slice | .map | .array =>
    .returns (if field.Len = 0 then some "field is required and must not be empty" else none)
  | .ptr | .interface =>
    .returns (if field.IsNil then some "field is required and must not be nil" else none)
  | _ =>
    if field.CanInterface flagRO then
      .returns
        (if field.isZero then some "field is required and must not be zero value" else none)
    else .panics

/-- Go: `rules.MinLength`. -/
def MinLength (field : Value) (min : Int) : Option String :=
  match field.Kind with
  | .string | .slice | .array =>
    if (field.Len : Int) < min then
      some ("field must have a minimum length of " ++ fmtInt min ++ " characters")
    else none
  | k => some ("unsupported type for MinLength validation: " ++ k.toString)

/-- Go: `rules.MaxLength`. -/
def MaxLength (field : Value) (max : Int) : Option String :=
  match field.Kind with
  | .string | .slice | .array =>
    if (field.Len : Int) > max then
      some ("field must have a maximum length of " ++ fmtInt max ++ " characters")
    else none
  | k => some ("unsupported type for MaxLength validation: " ++ k.toString)

/-- Go: `rules.PasswordRules`. -/
structure PasswordRules where
  MinLength : Int
  RequireDigits : Bool
  RequireUppercase : Bool
  RequireLowercase : Bool
  RequireSpecialChars : Bool
  deriving DecidableEq, Repr

/-- Go: `rules.DefaultPasswordRules`. -/
def DefaultPasswordRules : PasswordRules :=
  { MinLength := 8
    RequireDigits := true
    RequireSpecialChars := true
    RequireUppercase := true
    RequireLowercase := true }

/-- Go: `rules.Email`. The pattern is a constant that compiles, so the error branch of
`regexp.MatchString` is never taken. -/
def Email (field : Value) : Option String :=
  let email := field.Str
  if ! emailRegex.MatchString email then some "field must be a valid email address"
  else none

def containsDigits (s : String) : Bool :=
  s.data.any (fun char => decide (char ≥ '0') && decide (char ≤ '9'))

def containsUppercase (s : String) : Bool :=
  s.data.any (fun char => decide (char ≥ 'A') && decide (char ≤ 'Z'))

def containsLowercase (s : String) : Bool :=
  s.data.any (fun char => decide (char ≥ 'a') && decide (char ≤ 'z'))

def specialChars : String := "~!@#$%^&*()-_+=<>?/[]\x7b\x7d|"

def containsSpecialChars (s : String) : Bool :=
  s.data.any (fun char => specialChars.data.contains char)

/-- Go: `rules.Password`, on `field.Interface()`. -/
def Password (field : Value) (rules : PasswordRules) : Option String :=
  match field.assertString with
  | none => some "invalid field type for password validation"
  | some password =>
    if (password.utf8ByteSize : Int) < rules.MinLength then
      some ("password must have a minimum length of " ++ fmtInt rules.MinLength
        ++ " characters")
    else if rules.RequireDigits && ! containsDigits password then
      some "password must contain at least one digit"
    else if rules.RequireUppercase && ! containsUppercase password then
      some "password must contain at least one uppercase letter"
    else if rules.RequireLowercase && ! containsLowercase password then
      some "password must contain at least one lowercase letter"
    else if rules.RequireSpecialChars && ! containsSpecialChars password then
      some "password must contain at least one special character"
    else none

/-! ## `internal/validator` -/

/-- The errors that travel through the validator: one made by `fmt.Errorf` or `errors.New`,
a `ValidationErrors` value, or a pointer to one (the case the type switch of
`structValidate` looks for). Each entry of an aggregate is kept as its message. -/
inductive GoError where
  | errorString (msg : String)
  | validationErrors (ve : List String)
  | ptrValidationErrors (ve : List String)
  deriving DecidableEq, Repr

/-- Go: `ValidationErrors`: the messages of its entries, in the order they were appended. -/
abbrev ValidationErrors := List String

/-- Go: `ValidationErrors.Error`. -/
def ValidationErrors.Error (ve : ValidationErrors) : String := JoinNewline ve

/-- The method `Error` of the `error` interface. -/
def GoError.Error : GoError → String
  | .errorString msg => msg
  | .validationErrors ve => ValidationErrors.Error ve
  | .ptrValidationErrors ve => ValidationErrors.Error ve

/-- Go: `Validator`, the optional validator-scoped password policy; the mutex carries no
data. -/
structure Validator where
  customPasswordRules : Option PasswordRules
  deriving DecidableEq, Repr

/-- Go: `NewValidator`. -/
def NewValidator : Validator := { customPasswordRules := none }

/-- Go: `Validator.SetCustomPasswordRules`. -/
def Validator.SetCustomPasswordRules (_v : Validator)
    (customPasswordRules : Option PasswordRules) : Validator :=
  { customPasswordRules := customPasswordRules }

/-- The `switch subparts[0]` of `parsePasswordRules`: one sub-option written into the local
copy `customRules`; the conversion error is discarded and the converted value assigned. -/
def applyPasswordOption (customRules : PasswordRules) (key val : String) : PasswordRules :=
  if key = "min_length" then { customRules with MinLength := (Atoi val).1 }
  else if key = "require_digits" then { customRules with RequireDigits := (ParseBool val).1 }
  else if key = "require_uppercase" then
    { customRules with RequireUppercase := (ParseBool val).1 }
  else if key = "require_lowercase" then
    { customRules with RequireLowercase := (ParseBool val).1 }
  else if key = "require_special_chars" then
    { customRules with RequireSpecialChars := (ParseBool val).1 }
  else customRules

/-- The loop `for _, part := range parts` of `parsePasswordRules`, with its early return. -/
def parsePasswordParts : List String → PasswordRules → PasswordRules × Option String
  | [], customRules => (customRules, none)
  | part :: parts, customRules =>
    match SplitN2 part '=' with
    | [key, val] => parsePasswordParts parts (applyPasswordOption customRules key val)
    | _ => (DefaultPasswordRules, some "invalid password rule format")

/-- Go: `Validator.parsePasswordRules`: the policy and the error it returns. -/
def Validator.parsePasswordRules (v : Validator) (options : String) :
    PasswordRules × Option String :=
  if options = "" ∧ v.customPasswordRules = none then (DefaultPasswordRules, none)
  else
    let customRules :=
      match v.customPasswordRules with
      | some custom => custom
      | none => DefaultPasswordRules
    if options ≠ "" then parsePasswordParts (Split options ',') customRules
    else (customRules, none)

/-- The body of the loop `for _, rule := range rulesList` of `structValidate`: one rule
invocation of the field named `Name`, whose `reflect.Value` is `field` with the read-only
flag `flagRO`, appending to the aggregate. -/
def applyRule (v : Validator) (Name : String) (flagRO : Bool) (field : Value)
    (validationErrors : ValidationErrors) (rule : String) : Outcome ValidationErrors :=
  let parts := SplitN2 rule '='
  let name := parts.headD ""
  let options := match parts with
    | [_, o] => o
    | _ => ""
  if name = "required" then
    match Required flagRO field with
    | .panics => .panics
    | .returns (some _) => .returns (validationErrors ++ [Name ++ " is required"])
    | .returns none => .returns validationErrors
  else if name = "email" then
    match Email field with
    | some _ => .returns (validationErrors ++ [Name ++ " must be a valid email address"])
    | none => .returns validationErrors
  else if name = "min_length" then
    let validationErrors :=
      match (Atoi options).2 with
      | some _ => validationErrors ++ ["invalid min_length options: " ++ options]
      | none => validationErrors
    match MinLength field (Atoi options).1 with
    | some err => .returns (validationErrors ++ [err])
    | none => .returns validationErrors
  else if name = "max_length" then
    let validationErrors :=
      match (Atoi options).2 with
      | some _ => validationErrors ++ ["invalid max_length options: " ++ options]
      | none => validationErrors
    match MaxLength field (Atoi options).1 with
    | some err => .returns (validationErrors ++ [err])
    | none => .returns validationErrors
  else if name = "password" then
    let validationErrors :=
      match (v.parsePasswordRules options).2 with
      | some _ => validationErrors ++ ["invalid password options: " ++ options]
      | none => validationErrors
    if field.CanInterface flagRO then
      match Password field (v.parsePasswordRules options).1 with
      | some err => .returns (validationErrors ++ [err])
      | none => .returns validationErrors
    else .panics
  else .returns validationErrors

/-- The loop `for _, rule := range rulesList` of `structValidate`. -/
def rulesLoop (v : Validator) (Name : String) (flagRO : Bool) (field : Value) :
    List String → ValidationErrors → Outcome ValidationErrors
  | [], validationErrors => .returns validationErrors
  | rule :: rest, validationErrors =>
    match applyRule v Name flagRO field validationErrors rule with
    | .panics => .panics
    | .returns validationErrors => rulesLoop v Name flagRO field rest validationErrors

mutual
/-- Go: `Validator.structValidate` on the fields of a record reached with the flag
`flagStickyRO` equal to `sticky`, the goroutines run one after the other in field order:
the aggregate after the traversal and the error returned, which the source fixes to `nil`. -/
def Validator.structValidate (v : Validator) (sticky : Bool) :
    List Field → ValidationErrors → Outcome (ValidationErrors × Option GoError)
  | [], validationErrors => .returns (validationErrors, none)
  | f :: rest, validationErrors =>
    match Validator.fieldTask v sticky f validationErrors with
    | .panics => .panics
    | .returns validationErrors => Validator.structValidate v sticky rest validationErrors
/-- The goroutine of one field: its rule invocations in tag order, then, for a field of
struct kind, the traversal of the nested record on the same aggregate. Printing the `json`
tag does not touch the aggregate and is left out. As in `reflect.Value.Field`, the field's
value has the read-only flag when the field is unexported or the record carries
`flagStickyRO`, and it passes `flagStickyRO` on unless it is exported or embedded. -/
def Validator.fieldTask (v : Validator) (sticky : Bool) :
    Field → ValidationErrors → Outcome ValidationErrors
  | .mk Name tag _ exported embedded (.struct typ fs), validationErrors =>
    match rulesLoop v Name (sticky || ! exported) (.struct typ fs) (Split tag ',')
        validationErrors with
    | .panics => .panics
    | .returns validationErrors =>
      match Validator.structValidate v (sticky || (! exported && ! embedded)) fs
          validationErrors with
      | .panics => .panics
      | .returns (validationErrors, some (.ptrValidationErrors ve)) =>
        .returns (validationErrors ++ ve)
      | .returns (validationErrors, some err) =>
        .returns (validationErrors ++ [Name ++ ": " ++ err.Error])
      | .returns (validationErrors, none) => .returns validationErrors
  | .mk Name tag _ exported _ field, validationErrors =>
    rulesLoop v Name (sticky || ! exported) field (Split tag ',') validationErrors
end

/-- Go: `Validator.Validate`. The root comes from `reflect.ValueOf` and carries no read-only
flag. -/
def Validator.Validate (v : Validator) (data : Value) : Outcome (Option GoError) :=
  match data with
  | .struct _ fs =>
    match v.structValidate false fs [] with
    | .panics => .panics
    | .returns (_, some err) => .returns (some err)
    | .returns (validationErrors, none) =>
      .returns
        (if validationErrors.length > 0 then some (.validationErrors validationErrors)
          else none)
  | val =>
    .returns
      (some (.validationErrors ["unsupported type for validation: " ++ val.Kind.toString]))

/-! ## Schedules

`structValidate` starts one goroutine per field and waits for all of them; every append to
the aggregate happens under the validator's mutex. The aggregate a traversal leaves is
therefore some interleaving of what its goroutines append, each goroutine's own appends
staying in order. -/

/-- The relation `Shuffle a b out`: `out` interleaves `a` and `b`, keeping the order inside each. -/
inductive Shuffle : List String → List String → List String → Prop where
  | nil : Shuffle [] [] []
  | left (x : String) {a b out : List String} : Shuffle a b out → Shuffle (x :: a) b (x :: out)
  | right (y : String) {a b out : List String} :
    Shuffle a b out → Shuffle a (y :: b) (y :: out)

/-- What the rule loop of one field appends, in order, unless a panic ends it. -/
def ruleMessages (v : Validator) (Name : String) (flagRO : Bool) (tag : String)
    (field : Value) : Outcome (List String) :=
  rulesLoop v Name flagRO field (Split tag ',') []

/-- Goroutines side by side: when both run to their end the appends interleave, and a panic
in either ends the program. -/
def ShuffleOutcome (t r out : Outcome (List String)) : Prop :=
  match t, r with
  | .returns t, .returns r => ∃ o, Shuffle t r o ∧ out = .returns o
  | _, _ => out = .panics

/-- A goroutine that goes on with a nested traversal after its own appends. -/
def appendOutcome (msgs : List String) : Outcome (List String) → Outcome (List String)
  | .returns r => .returns (msgs ++ r)
  | .panics => .panics

mutual
/-- The relation `StructRun v sticky fields out`: `out` is what some schedule of the
goroutines of `structValidate` on `fields` comes to, the appends to the aggregate or a
panic. -/
def StructRun (v : Validator) (sticky : Bool) : List Field → Outcome (List String) → Prop
  | [], out => out = .returns []
  | f :: rest, out =>
    ∃ t r, FieldRun v sticky f t ∧ StructRun v sticky rest r ∧ ShuffleOutcome t r out
/-- The relation `FieldRun v sticky f out`: `out` is what the goroutine of the field `f` comes
to, its own rule messages first, then whatever a schedule of the nested traversal appends. -/
def FieldRun (v : Validator) (sticky : Bool) : Field → Outcome (List String) → Prop
  | .mk Name tag _ exported embedded (.struct typ fs), out =>
    match ruleMessages v Name (sticky || ! exported) tag (.struct typ fs) with
    | .panics => out = .panics
    | .returns msgs =>
      ∃ r, StructRun v (sticky || (! exported && ! embedded)) fs r ∧ out = appendOutcome msgs r
  | .mk Name tag _ exported _ field, out =>
    out = ruleMessages v Name (sticky || ! exported) tag field
end

/-- What `Validate` makes of the aggregate the traversal leaves. -/
def resultOf : Outcome (List String) → Outcome (Option GoError)
  | .panics => .panics
  | .returns validationErrors =>
    .returns
      (if validationErrors.length > 0 then some (.validationErrors validationErrors)
        else none)

/-- The relation `ValidateRun v data result`: `result` is what `Validate` comes to under some
schedule. -/
def Validator.ValidateRun (v : Validator) (data : Value)
    (result : Outcome (Option GoError)) : Prop :=
  match data with
  | .struct _ fs => ∃ run, StructRun v false fs run ∧ result = resultOf run
  | val =>
    result =
      .returns
        (some (.validationErrors ["unsupported type for validation: " ++ val.Kind.toString]))

/-! ## The vocabulary of the specification -/

/-- A rule invocation in context: the name of the field it is attached to, the read-only
flag and the value of the field, and one entry of the comma-separated rule specification. -/
structure Invocation where
  Name : String
  flagRO : Bool
  field : Value
  rule : String

mutual
/-- Every rule invocation of every field of a record reached with `flagStickyRO` equal to
`sticky`, nested records included. -/
def invocations (sticky : Bool) : List Field → List Invocation
  | [] => []
  | f :: rest => fieldInvocations sticky f ++ invocations sticky rest
/-- The rule invocations of one field, then those of the record it holds, if it holds one. -/
def fieldInvocations (sticky : Bool) : Field → List Invocation
  | .mk Name tag _ exported embedded (.struct typ fs) =>
    (Split tag ',').map
        (fun rule => Invocation.mk Name (sticky || ! exported) (.struct typ fs) rule)
      ++ invocations (sticky || (! exported && ! embedded)) fs
  | .mk Name tag _ exported _ field =>
    (Split tag ',').map (fun rule => Invocation.mk Name (sticky || ! exported) field rule)
end

/-- The rule name of an invocation: what precedes the first `=`. -/
def Invocation.name (i : Invocation) : String := (SplitN2 i.rule '=').headD ""

/-- The options of an invocation: what follows the first `=`, empty when there is none. -/
def Invocation.options (i : Invocation) : String :=
  match SplitN2 i.rule '=' with
  | [_, o] => o
  | _ => ""

/-- A rule invocation panics: it is `required` on a kind that takes the default branch of
`Required`, or `password`, and `Interface` cannot be called on the field. -/
def Invocation.panics (i : Invocation) : Bool :=
  (decide (i.name = "required") && decide (Required i.flagRO i.field = .panics))
    || (decide (i.name = "password") && ! i.field.CanInterface i.flagRO)

/-- The messages one rule invocation produces: what it appends to an empty aggregate. -/
def Invocation.messages (v : Validator) (i : Invocation) : List String :=
  match applyRule v i.Name i.flagRO i.field [] i.rule with
  | .returns msgs => msgs
  | .panics => []

/-- A rule invocation passes: its options are well formed and its rule function returns and
accepts the field's value. An invocation of no known rule has nothing to violate. -/
def Invocation.passes (v : Validator) (i : Invocation) : Bool :=
  if i.name = "required" then decide (Required i.flagRO i.field = .returns none)
  else if i.name = "email" then (Email i.field).isNone
  else if i.name = "min_length" then
    (Atoi i.options).2.isNone && (MinLength i.field (Atoi i.options).1).isNone
  else if i.name = "max_length" then
    (Atoi i.options).2.isNone && (MaxLength i.field (Atoi i.options).1).isNone
  else if i.name = "password" then
    (v.parsePasswordRules i.options).2.isNone && i.field.CanInterface i.flagRO
      && (Password i.field (v.parsePasswordRules i.options).1).isNone
  else true

mutual
/-- Every field of a record, at every depth, is exported and holds a value. -/
def Field.allExported : List Field → Bool
  | [] => true
  | f :: rest => Field.isExported f && Field.allExported rest
/-- The field is exported, holds a value, and so do the fields of the record it holds. -/
def Field.isExported : Field → Bool
  | .mk _ _ _ exported _ (.struct _ fs) => exported && Field.allExported fs
  | .mk _ _ _ exported _ field => exported && field.Kind != .invalid
end

/-- The union of the messages of all rule invocations of a record, in traversal order. -/
def unionMessages (v : Validator) (sticky : Bool) (fields : List Field) : List String :=
  (invocations sticky fields).flatMap (Invocation.messages v)

/-- The messages of one field's goroutine and of the traversal nested in it. -/
def fieldMessages (v : Validator) (sticky : Bool) (f : Field) : List String :=
  (fieldInvocations sticky f).flatMap (Invocation.messages v)

/-- The messages carried by what `Validate` returns; `nil` carries none. -/
def resultMessages : Option GoError → List String
  | none => []
  | some (.errorString msg) => [msg]
  | some (.validationErrors ve) => ve
  | some (.ptrValidationErrors ve) => ve

/-! ## `cmd/example/main.go` -/

/-- The struct type `User` with its `validate` tags. -/
def User (Username Email Password : String) : Value :=
  .struct "main.User"
    [ .mk "Username" "required,min_length=3,max_length=10" "" true false
        (.str "string" Username),
      .mk "Email" "required,email" "" true false (.str "string" Email),
      .mk "Password" "required,password" "" true false (.str "string" Password) ]

def validUser : Value := User "codestack" "user@example.com" "Password123@#12"

def invalidUser : Value := User "short" "invalid-email" "weak"

/-- The policy of the example: every requirement off, `MinLength` left at its zero value. -/
def customPasswordRules : PasswordRules :=
  { MinLength := 0
    RequireUppercase := false
    RequireLowercase := false
    RequireDigits := false
    RequireSpecialChars := false }

/-- The struct type `Address`. -/
def Address (City State : String) : Value :=
  .struct "main.Address"
    [ .mk "City" "required" "" true false (.str "string" City),
      .mk "State" "required" "" true false (.str "string" State) ]

/-- The struct type `Profile`. -/
def Profile (Name : String) (address : Value) : Value :=
  .struct "main.Profile"
    [ .mk "Name" "required" "" true false (.str "string" Name),
      .mk "Address" "required" "" true false address ]

def profileWithInvalidAddress : Value := Profile "John Doe" (Address "" "New York")

/-! ## The password resolver as the specification words it -/

/-- The validator's custom policy if one is set, the built-in default otherwise. -/
def Validator.basePolicy (v : Validator) : PasswordRules :=
  match v.customPasswordRules with
  | some custom => custom
  | none => DefaultPasswordRules

/-- The value of the last pair with the given key, if the key is named at all. -/
def lastGiven (key : String) : List (String × String) → Option String
  | [] => none
  | (k, val) :: rest =>
    match lastGiven key rest with
    | some x => some x
    | none => if k = key then some val else none

/-- The integer a sub-option value denotes, if it parses. -/
def givenInt (val : String) : Option Int :=
  match Atoi val with
  | (n, none) => some n
  | (_, some _) => none

/-- The boolean a sub-option value denotes, if it parses. -/
def givenBool (val : String) : Option Bool :=
  match ParseBool val with
  | (b, none) => some b
  | (_, some _) => none

/-- The merge of the specification: the base policy with exactly the fields named by the
recognized keys overwritten by the values given for them, every other field kept. -/
def mergedPolicy (base : PasswordRules) (pairs : List (String × String)) : PasswordRules :=
  { MinLength := ((lastGiven "min_length" pairs).bind givenInt).getD base.MinLength
    RequireDigits := ((lastGiven "require_digits" pairs).bind givenBool).getD base.RequireDigits
    RequireUppercase :=
      ((lastGiven "require_uppercase" pairs).bind givenBool).getD base.RequireUppercase
    RequireLowercase :=
      ((lastGiven "require_lowercase" pairs).bind givenBool).getD base.RequireLowercase
    RequireSpecialChars :=
      ((lastGiven "require_special_chars" pairs).bind givenBool).getD
        base.RequireSpecialChars }

/-! ## The language of a regular expression -/

/-- The texts a regular expression denotes. -/
inductive Regex.Matches : Regex → List Char → Prop where
  | eps : Regex.Matches .eps []
  | cls {p : Char → Bool} {c : Char} : p c = true → Regex.Matches (.cls p) [c]
  | altLeft {a b : Regex} {cs : List Char} : Regex.Matches a cs → Regex.Matches (.alt a b) cs
  | altRight {a b : Regex} {cs : List Char} : Regex.Matches b cs → Regex.Matches (.alt a b) cs
  | concat {a b : Regex} {x y : List Char} :
    Regex.Matches a x → Regex.Matches b y → Regex.Matches (.concat a b) (x ++ y)
  | starNil {a : Regex} : Regex.Matches (.star a) []
  | starCons {a : Regex} {x y : List Char} :
    Regex.Matches a x → Regex.Matches (.star a) y → Regex.Matches (.star a) (x ++ y)

/-- The shape the e-mail pattern describes: a non-empty local part, `@`, a non-empty domain,
`.`, and at least two letters. -/
def EmailShape (cs : List Char) : Prop :=
  ∃ loc domain tld : List Char,
    cs = loc ++ '@' :: (domain ++ '.' :: tld)
    ∧ loc ≠ [] ∧ (∀ c ∈ loc, isLocalChar c = true)
    ∧ domain ≠ [] ∧ (∀ c ∈ domain, isDomainChar c = true)
    ∧ 2 ≤ tld.length ∧ (∀ c ∈ tld, isLetter c = true)

/-! ## The validator as a state

The methods of `*Validator` once more, this time threading everything a call can touch: the
mutex `mu` and the stored policy. A method returns `none` when it does not come back: `Lock`
on a mutex that is held (the goroutine would wait for itself), `Unlock` on one that is not,
or a panic. The goroutines run one after the other in field order. -/

/-- The fields of `Validator`: whether `mu` is held, and `customPasswordRules` together with
the policy it points to. -/
structure ValidatorState where
  locked : Bool
  customPasswordRules : Option PasswordRules
  deriving DecidableEq, Repr

namespace ValidatorState

/-- The validator as the rule dispatch reads it. -/
def validator (σ : ValidatorState) : Validator :=
  { customPasswordRules := σ.customPasswordRules }

/-- Go: `v.mu.Lock()`. -/
def Lock (σ : ValidatorState) : Option ValidatorState :=
  if σ.locked then none else some { σ with locked := true }

/-- Go: `v.mu.Unlock()`. -/
def Unlock (σ : ValidatorState) : Option ValidatorState :=
  if σ.locked then some { σ with locked := false } else none

/-- Go: `Validator.SetCustomPasswordRules`, the one method that assigns to the stored
policy. -/
def SetCustomPasswordRules (σ : ValidatorState)
    (customPasswordRules : Option PasswordRules) : Option ValidatorState := do
  let σ ← σ.Lock
  let σ := { σ with customPasswordRules := customPasswordRules }
  σ.Unlock

/-- Go: `Validator.parsePasswordRules`. The stored policy is read under the mutex and copied
into the local `customRules`; the sub-options are written into that copy. -/
def parsePasswordRules (σ : ValidatorState) (options : String) :
    Option ((PasswordRules × Option String) × ValidatorState) := do
  let σ ← σ.Lock
  let result : PasswordRules × Option String :=
    if options = "" ∧ σ.customPasswordRules = none then (DefaultPasswordRules, none)
    else
      let customRules :=
        match σ.customPasswordRules with
        | some custom => custom
        | none => DefaultPasswordRules
      if options ≠ "" then parsePasswordParts (Split options ',') customRules
      else (customRules, none)
  let σ ← σ.Unlock
  pure (result, σ)

/-- The three lines `v.mu.Lock()`, `*validationErrors = append(...)`, `v.mu.Unlock()`. -/
def append (σ : ValidatorState) (validationErrors : ValidationErrors) (msg : String) :
    Option (ValidationErrors × ValidatorState) := do
  let σ ← σ.Lock
  let validationErrors := validationErrors ++ [msg]
  let σ ← σ.Unlock
  pure (validationErrors, σ)

/-- The body of the loop over `rulesList`, with the mutex. -/
def applyRule (σ : ValidatorState) (Name : String) (flagRO : Bool) (field : Value)
    (validationErrors : ValidationErrors) (rule : String) :
    Option (ValidationErrors × ValidatorState) :=
  let parts := SplitN2 rule '='
  let name := parts.headD ""
  let options := match parts with
    | [_, o] => o
    | _ => ""
  if name = "required" then
    match Required flagRO field with
    | .panics => none
    | .returns (some _) => σ.append validationErrors (Name ++ " is required")
    | .returns none => some (validationErrors, σ)
  else if name = "email" then
    match Email field with
    | some _ => σ.append validationErrors (Name ++ " must be a valid email address")
    | none => some (validationErrors, σ)
  else if name = "min_length" then do
    let (validationErrors, σ) ←
      match (Atoi options).2 with
      | some _ => σ.append validationErrors ("invalid min_length options: " ++ options)
      | none => some (validationErrors, σ)
    match MinLength field (Atoi options).1 with
    | some err => σ.append validationErrors err
    | none => some (validationErrors, σ)
  else if name = "max_length" then do
    let (validationErrors, σ) ←
      match (Atoi options).2 with
      | some _ => σ.append validationErrors ("invalid max_length options: " ++ options)
      | none => some (validationErrors, σ)
    match MaxLength field (Atoi options).1 with
    | some err => σ.append validationErrors err
    | none => some (validationErrors, σ)
  else if name = "password" then do
    let ((passwordRules, err), σ) ← σ.parsePasswordRules options
    let (validationErrors, σ) ←
      match err with
      | some _ => σ.append validationErrors ("invalid password options: " ++ options)
      | none => some (validationErrors, σ)
    if field.CanInterface flagRO then
      match Password field passwordRules with
      | some err => σ.append validationErrors err
      | none => some (validationErrors, σ)
    else none
  else some (validationErrors, σ)

/-- The loop `for _, rule := range rulesList`. -/
def rulesLoop (Name : String) (flagRO : Bool) (field : Value) :
    List String → ValidationErrors → ValidatorState →
      Option (ValidationErrors × ValidatorState)
  | [], validationErrors, σ => some (validationErrors, σ)
  | rule :: rest, validationErrors, σ =>
    match σ.applyRule Name flagRO field validationErrors rule with
    | none => none
    | some (validationErrors, σ) => rulesLoop Name flagRO field rest validationErrors σ

mutual
/-- Go: `Validator.structValidate`, the goroutines in field order. -/
def structValidate (sticky : Bool) :
    List Field → ValidationErrors → ValidatorState →
      Option ((ValidationErrors × Option GoError) × ValidatorState)
  | [], validationErrors, σ => some ((validationErrors, none), σ)
  | f :: rest, validationErrors, σ =>
    match fieldTask sticky f validationErrors σ with
    | none => none
    | some (validationErrors, σ) => structValidate sticky rest validationErrors σ
/-- The goroutine of one field. -/
def fieldTask (sticky : Bool) :
    Field → ValidationErrors → ValidatorState → Option (ValidationErrors × ValidatorState)
  | .mk Name tag _ exported embedded (.struct typ fs), validationErrors, σ =>
    match rulesLoop Name (sticky || ! exported) (.struct typ fs) (Split tag ',')
        validationErrors σ with
    | none => none
    | some (validationErrors, σ) =>
      match structValidate (sticky || (! exported && ! embedded)) fs validationErrors σ with
      | none => none
      | some ((validationErrors, some (.ptrValidationErrors ve)), σ) =>
        match σ.Lock with
        | none => none
        | some σ =>
          match σ.Unlock with
          | none => none
          | some σ => some (validationErrors ++ ve, σ)
      | some ((validationErrors, some err), σ) =>
        σ.append validationErrors (Name ++ ": " ++ err.Error)
      | some ((validationErrors, none), σ) => some (validationErrors, σ)
  | .mk Name tag _ exported _ field, validationErrors, σ =>
    rulesLoop Name (sticky || ! exported) field (Split tag ',') validationErrors σ
end

/-- Go: `Validator.Validate`: what it returns and the state it leaves. -/
def Validate (σ : ValidatorState) (data : Value) : Option (Option GoError × ValidatorState) :=
  match data with
  | .struct _ fs =>
    match structValidate false fs [] σ with
    | none => none
    | some ((_, some err), σ) => some (some err, σ)
    | some ((validationErrors, none), σ) =>
      some (if validationErrors.length > 0 then some (.validationErrors validationErrors)
        else none, σ)
  | val =>
    some (some (.validationErrors
      ["unsupported type for validation: " ++ val.Kind.toString]), σ)

end ValidatorState

/-- A call that returns leaves the validator in the state `σ`; a call that a panic ends does
not come back. -/
def Outcome.withState {α : Type} (σ : ValidatorState) : Outcome α → Option (α × ValidatorState)
  | .returns a => some (a, σ)
  | .panics => none

/-! ## Theorems -/

/-! ## Helper lemmas -/

theorem applyRule_eq (v : Validator) (Name : String) (flagRO : Bool) (field : Value)
    (errs : ValidationErrors) (rule : String) :
    applyRule v Name flagRO field errs rule
      = if Invocation.panics ⟨Name, flagRO, field, rule⟩ = true then .panics
        else .returns (errs ++ Invocation.messages v ⟨Name, flagRO, field, rule⟩) := by
  unfold Invocation.panics Invocation.messages applyRule Invocation.name
  simp only []
  split_ifs <;> (repeat' split) <;> simp_all

theorem rulesLoop_eq (v : Validator) (Name : String) (flagRO : Bool) (field : Value)
    (rules : List String) (errs : ValidationErrors) :
    rulesLoop v Name flagRO field rules errs
      = if (rules.map (fun rule => Invocation.mk Name flagRO field rule)).any
            Invocation.panics = true then .panics
        else .returns (errs ++
          (rules.map (fun rule => Invocation.mk Name flagRO field rule)).flatMap
            (Invocation.messages v)) := by
  induction rules generalizing errs with
  | nil => simp [rulesLoop]
  | cons r rs ih =>
    rw [rulesLoop, applyRule_eq]
    by_cases hp : Invocation.panics ⟨Name, flagRO, field, r⟩ = true
    · rw [if_pos hp]
      simp [hp]
    · rw [if_neg hp]
      simp only []
      rw [ih]
      simp [hp, List.append_assoc]

theorem ruleMessages_eq (v : Validator) (Name : String) (flagRO : Bool) (tag : String)
    (field : Value) :
    ruleMessages v Name flagRO tag field
      = if ((Split tag ',').map (fun rule => Invocation.mk Name flagRO field rule)).any
            Invocation.panics = true then .panics
        else .returns
          (((Split tag ',').map (fun rule => Invocation.mk Name flagRO field rule)).flatMap
            (Invocation.messages v)) := by
  unfold ruleMessages
  rw [rulesLoop_eq]
  simp

theorem any_panics_append (a b : List Invocation) :
    (a ++ b).any Invocation.panics = (a.any Invocation.panics || b.any Invocation.panics) := by
  simp

mutual
theorem structValidate_eq (v : Validator) :
    ∀ (sticky : Bool) (fs : List Field) (errs : ValidationErrors),
      v.structValidate sticky fs errs
        = if (invocations sticky fs).any Invocation.panics = true then .panics
          else .returns (errs ++ unionMessages v sticky fs, none)
  | sticky, [], errs => by simp [Validator.structValidate, unionMessages, invocations]
  | sticky, f :: rest, errs => by
    rw [Validator.structValidate, fieldTask_eq v sticky f errs]
    by_cases hf : (fieldInvocations sticky f).any Invocation.panics = true
    · rw [if_pos hf]
      simp only [invocations, List.any_append, hf, Bool.true_or, if_true]
    · rw [if_neg hf]
      simp only []
      rw [structValidate_eq v sticky rest]
      simp only [Bool.not_eq_true] at hf
      simp only [invocations, List.any_append, hf, Bool.false_or, unionMessages,
        List.flatMap_append, fieldMessages, List.append_assoc]
theorem fieldTask_eq (v : Validator) :
    ∀ (sticky : Bool) (f : Field) (errs : ValidationErrors),
      v.fieldTask sticky f errs
        = if (fieldInvocations sticky f).any Invocation.panics = true then .panics
          else .returns (errs ++ fieldMessages v sticky f)
  | sticky, .mk Name tag j exported embedded (.struct typ fs), errs => by
    rw [Validator.fieldTask, rulesLoop_eq]
    by_cases hr : ((Split tag ',').map
        (fun rule => Invocation.mk Name (sticky || ! exported) (.struct typ fs) rule)).any
          Invocation.panics = true
    · rw [if_pos hr]
      simp only [fieldInvocations, List.any_append, hr, Bool.true_or, if_true]
    · rw [if_neg hr]
      simp only []
      rw [structValidate_eq v _ fs]
      simp only [Bool.not_eq_true] at hr
      by_cases hn : (invocations (sticky || (! exported && ! embedded)) fs).any
          Invocation.panics = true
      · rw [if_pos hn]
        simp only [fieldInvocations, List.any_append, hn, Bool.or_true, if_true]
      · rw [if_neg hn]
        simp only [Bool.not_eq_true] at hn
        simp only [fieldInvocations, List.any_append, hr, hn, Bool.or_false,
          Bool.false_eq_true, if_false, fieldMessages, List.flatMap_append, unionMessages,
          List.append_assoc]
  | sticky, .mk Name tag j exported embedded .invalid, errs => by
    simp [Validator.fieldTask, fieldInvocations, rulesLoop_eq, fieldMessages]
  | sticky, .mk Name tag j exported embedded (.bool _ _), errs => by
    simp [Validator.fieldTask, fieldInvocations, rulesLoop_eq, fieldMessages]
  | sticky, .mk Name tag j exported embedded (.int _ _ _), errs => by
    simp [Validator.fieldTask, fieldInvocations, rulesLoop_eq, fieldMessages]
  | sticky, .mk Name tag j exported embedded (.float _ _ _), errs => by
    simp [Validator.fieldTask, fieldInvocations, rulesLoop_eq, fieldMessages]
  | sticky, .mk Name tag j exported embedded (.str _ _), errs => by
    simp [Validator.fieldTask, fieldInvocations, rulesLoop_eq, fieldMessages]
  | sticky, .mk Name tag j exported embedded (.slice _ _), errs => by
    simp [Validator.fieldTask, fieldInvocations, rulesLoop_eq, fieldMessages]
  | sticky, .mk Name tag j exported embedded (.map _ _), errs => by
    simp [Validator.fieldTask, fieldInvocations, rulesLoop_eq, fieldMessages]
  | sticky, .mk Name tag j exported embedded (.array _ _), errs => by
    simp [Validator.fieldTask, fieldInvocations, rulesLoop_eq, fieldMessages]
  | sticky, .mk Name tag j exported embedded (.ptr _ _), errs => by
    simp [Validator.fieldTask, fieldInvocations, rulesLoop_eq, fieldMessages]
  | sticky, .mk Name tag j exported embedded (.iface _ _), errs => by
    simp [Validator.fieldTask, fieldInvocations, rulesLoop_eq, fieldMessages]
  | sticky, .mk Name tag j exported embedded (.ref _ _ _), errs => by
    simp [Validator.fieldTask, fieldInvocations, rulesLoop_eq, fieldMessages]
end

theorem Shuffle_perm {a b out : List String} (h : Shuffle a b out) : out.Perm (a ++ b) := by
  induction h with
  | nil => simp
  | left x _ ih => simpa using ih
  | right y _ ih =>
    exact (List.Perm.cons y ih).trans (List.perm_middle.symm)

theorem Shuffle_nil_right : ∀ (a : List String), Shuffle a [] a
  | [] => Shuffle.nil
  | x :: a => Shuffle.left x (Shuffle_nil_right a)

theorem Shuffle_append : ∀ (a b : List String), Shuffle a b (a ++ b)
  | [], [] => Shuffle.nil
  | [], y :: b => Shuffle.right y (Shuffle_append [] b)
  | x :: a, b => Shuffle.left x (Shuffle_append a b)

mutual
theorem StructRun_outcome (v : Validator) :
    ∀ (sticky : Bool) (fs : List Field) (out : Outcome (List String)),
      StructRun v sticky fs out →
        if (invocations sticky fs).any Invocation.panics = true then out = .panics
        else ∃ o, out = .returns o ∧ o.Perm (unionMessages v sticky fs)
  | sticky, [], out, h => by
    simp only [StructRun] at h
    subst h
    simp [unionMessages, invocations]
  | sticky, f :: rest, out, h => by
    simp only [StructRun] at h
    obtain ⟨t, r, ht, hr, hs⟩ := h
    have h1 := FieldRun_outcome v sticky f t ht
    have h2 := StructRun_outcome v sticky rest r hr
    by_cases hf : (fieldInvocations sticky f).any Invocation.panics = true
    · rw [if_pos hf] at h1
      subst h1
      have : (invocations sticky (f :: rest)).any Invocation.panics = true := by
        simp only [invocations, List.any_append, hf, Bool.true_or]
      rw [if_pos this]
      simpa [ShuffleOutcome] using hs
    · rw [if_neg hf] at h1
      obtain ⟨o1, rfl, hp1⟩ := h1
      simp only [Bool.not_eq_true] at hf
      by_cases hn : (invocations sticky rest).any Invocation.panics = true
      · rw [if_pos hn] at h2
        subst h2
        have : (invocations sticky (f :: rest)).any Invocation.panics = true := by
          simp only [invocations, List.any_append, hn, Bool.or_true]
        rw [if_pos this]
        simpa [ShuffleOutcome] using hs
      · rw [if_neg hn] at h2
        obtain ⟨o2, rfl, hp2⟩ := h2
        simp only [Bool.not_eq_true] at hn
        have : ¬ (invocations sticky (f :: rest)).any Invocation.panics = true := by
          simp only [invocations, List.any_append, hf, hn, Bool.or_false,
            Bool.false_eq_true, not_false_eq_true]
        rw [if_neg this]
        simp only [ShuffleOutcome] at hs
        obtain ⟨o, hsh, rfl⟩ := hs
        refine ⟨o, rfl, ?_⟩
        simp only [unionMessages, invocations, List.flatMap_append]
        exact (Shuffle_perm hsh).trans (List.Perm.append hp1 hp2)
theorem FieldRun_outcome (v : Validator) :
    ∀ (sticky : Bool) (f : Field) (out : Outcome (List String)),
      FieldRun v sticky f out →
        if (fieldInvocations sticky f).any Invocation.panics = true then out = .panics
        else ∃ o, out = .returns o ∧ o.Perm (fieldMessages v sticky f)
  | sticky, .mk Name tag j exported embedded (.struct typ fs), out, h => by
    simp only [FieldRun, ruleMessages_eq] at h
    by_cases hr : ((Split tag ',').map
        (fun rule => Invocation.mk Name (sticky || ! exported) (.struct typ fs) rule)).any
          Invocation.panics = true
    · rw [if_pos hr] at h
      simp only at h
      have : (fieldInvocations sticky
          (.mk Name tag j exported embedded (.struct typ fs))).any Invocation.panics = true := by
        simp only [fieldInvocations, List.any_append, hr, Bool.true_or]
      rw [if_pos this]
      exact h
    · rw [if_neg hr] at h
      simp only at h
      obtain ⟨r, hrun, rfl⟩ := h
      have h2 := StructRun_outcome v _ fs r hrun
      simp only [Bool.not_eq_true] at hr
      by_cases hn : (invocations (sticky || (! exported && ! embedded)) fs).any
          Invocation.panics = true
      · rw [if_pos hn] at h2
        subst h2
        have : (fieldInvocations sticky
            (.mk Name tag j exported embedded (.struct typ fs))).any Invocation.panics
              = true := by
          simp only [fieldInvocations, List.any_append, hn, Bool.or_true]
        rw [if_pos this]
        rfl
      · rw [if_neg hn] at h2
        obtain ⟨o2, rfl, hp2⟩ := h2
        simp only [Bool.not_eq_true] at hn
        have : ¬ (fieldInvocations sticky
            (.mk Name tag j exported embedded (.struct typ fs))).any Invocation.panics
              = true := by
          simp only [fieldInvocations, List.any_append, hr, hn, Bool.or_false,
            Bool.false_eq_true, not_false_eq_true]
        rw [if_neg this]
        refine ⟨_, rfl, ?_⟩
        simp only [fieldMessages, fieldInvocations, List.flatMap_append]
        exact List.Perm.append_left _ hp2
  | sticky, .mk Name tag j exported embedded .invalid, out, h => by
    simp only [FieldRun, ruleMessages_eq] at h
    subst h
    simp only [fieldInvocations, fieldMessages]
    split_ifs <;> simp
  | sticky, .mk Name tag j exported embedded (.bool _ _), out, h => by
    simp only [FieldRun, ruleMessages_eq] at h
    subst h
    simp only [fieldInvocations, fieldMessages]
    split_ifs <;> simp
  | sticky, .mk Name tag j exported embedded (.int _ _ _), out, h => by
    simp only [FieldRun, ruleMessages_eq] at h
    subst h
    simp only [fieldInvocations, fieldMessages]
    split_ifs <;> simp
  | sticky, .mk Name tag j exported embedded (.float _ _ _), out, h => by
    simp only [FieldRun, ruleMessages_eq] at h
    subst h
    simp only [fieldInvocations, fieldMessages]
    split_ifs <;> simp
  | sticky, .mk Name tag j exported embedded (.str _ _), out, h => by
    simp only [FieldRun, ruleMessages_eq] at h
    subst h
    simp only [fieldInvocations, fieldMessages]
    split_ifs <;> simp
  | sticky, .mk Name tag j exported embedded (.slice _ _), out, h => by
    simp only [FieldRun, ruleMessages_eq] at h
    subst h
    simp only [fieldInvocations, fieldMessages]
    split_ifs <;> simp
  | sticky, .mk Name tag j exported embedded (.map _ _), out, h => by
    simp only [FieldRun, ruleMessages_eq] at h
    subst h
    simp only [fieldInvocations, fieldMessages]
    split_ifs <;> simp
  | sticky, .mk Name tag j exported embedded (.array _ _), out, h => by
    simp only [FieldRun, ruleMessages_eq] at h
    subst h
    simp only [fieldInvocations, fieldMessages]
    split_ifs <;> simp
  | sticky, .mk Name tag j exported embedded (.ptr _ _), out, h => by
    simp only [FieldRun, ruleMessages_eq] at h
    subst h
    simp only [fieldInvocations, fieldMessages]
    split_ifs <;> simp
  | sticky, .mk Name tag j exported embedded (.iface _ _), out, h => by
    simp only [FieldRun, ruleMessages_eq] at h
    subst h
    simp only [fieldInvocations, fieldMessages]
    split_ifs <;> simp
  | sticky, .mk Name tag j exported embedded (.ref _ _ _), out, h => by
    simp only [FieldRun, ruleMessages_eq] at h
    subst h
    simp only [fieldInvocations, fieldMessages]
    split_ifs <;> simp
end

mutual
theorem StructRun_sequential (v : Validator) :
    ∀ (sticky : Bool) (fs : List Field),
      StructRun v sticky fs
        (if (invocations sticky fs).any Invocation.panics = true then .panics
          else .returns (unionMessages v sticky fs))
  | sticky, [] => by simp [StructRun, unionMessages, invocations]
  | sticky, f :: rest => by
    simp only [StructRun]
    refine ⟨_, _, FieldRun_sequential v sticky f, StructRun_sequential v sticky rest, ?_⟩
    by_cases hf : (fieldInvocations sticky f).any Invocation.panics = true
    · simp [ShuffleOutcome, hf, invocations]
    · simp only [Bool.not_eq_true] at hf
      by_cases hn : (invocations sticky rest).any Invocation.panics = true
      · simp [ShuffleOutcome, hf, hn, invocations]
      · simp only [Bool.not_eq_true] at hn
        simp only [ShuffleOutcome, hf, hn, invocations, List.any_append, Bool.or_false,
          Bool.false_eq_true, if_false, unionMessages, List.flatMap_append]
        exact ⟨_, Shuffle_append _ _, rfl⟩
theorem FieldRun_sequential (v : Validator) :
    ∀ (sticky : Bool) (f : Field),
      FieldRun v sticky f
        (if (fieldInvocations sticky f).any Invocation.panics = true then .panics
          else .returns (fieldMessages v sticky f))
  | sticky, .mk Name tag j exported embedded (.struct typ fs) => by
    simp only [FieldRun, ruleMessages_eq]
    by_cases hr : ((Split tag ',').map
        (fun rule => Invocation.mk Name (sticky || ! exported) (.struct typ fs) rule)).any
          Invocation.panics = true
    · rw [if_pos hr]
      simp [fieldInvocations, hr]
    · rw [if_neg hr]
      simp only [Bool.not_eq_true] at hr
      refine ⟨_, StructRun_sequential v _ fs, ?_⟩
      by_cases hn : (invocations (sticky || (! exported && ! embedded)) fs).any
          Invocation.panics = true
      · simp [fieldInvocations, hr, hn, appendOutcome]
      · simp only [Bool.not_eq_true] at hn
        simp [fieldInvocations, hr, hn, appendOutcome, fieldMessages, unionMessages]
  | sticky, .mk Name tag j exported embedded .invalid => by
    simp only [FieldRun, ruleMessages_eq, fieldInvocations, fieldMessages]
  | sticky, .mk Name tag j exported embedded (.bool _ _) => by
    simp only [FieldRun, ruleMessages_eq, fieldInvocations, fieldMessages]
  | sticky, .mk Name tag j exported embedded (.int _ _ _) => by
    simp only [FieldRun, ruleMessages_eq, fieldInvocations, fieldMessages]
  | sticky, .mk Name tag j exported embedded (.float _ _ _) => by
    simp only [FieldRun, ruleMessages_eq, fieldInvocations, fieldMessages]
  | sticky, .mk Name tag j exported embedded (.str _ _) => by
    simp only [FieldRun, ruleMessages_eq, fieldInvocations, fieldMessages]
  | sticky, .mk Name tag j exported embedded (.slice _ _) => by
    simp only [FieldRun, ruleMessages_eq, fieldInvocations, fieldMessages]
  | sticky, .mk Name tag j exported embedded (.map _ _) => by
    simp only [FieldRun, ruleMessages_eq, fieldInvocations, fieldMessages]
  | sticky, .mk Name tag j exported embedded (.array _ _) => by
    simp only [FieldRun, ruleMessages_eq, fieldInvocations, fieldMessages]
  | sticky, .mk Name tag j exported embedded (.ptr _ _) => by
    simp only [FieldRun, ruleMessages_eq, fieldInvocations, fieldMessages]
  | sticky, .mk Name tag j exported embedded (.iface _ _) => by
    simp only [FieldRun, ruleMessages_eq, fieldInvocations, fieldMessages]
  | sticky, .mk Name tag j exported embedded (.ref _ _ _) => by
    simp only [FieldRun, ruleMessages_eq, fieldInvocations, fieldMessages]
end

theorem applyRule_invocation (v : Validator) (i : Invocation) (errs : ValidationErrors) :
    applyRule v i.Name i.flagRO i.field errs i.rule =
      if i.name = "required" then
        match Required i.flagRO i.field with
        | .panics => .panics
        | .returns (some _) => .returns (errs ++ [i.Name ++ " is required"])
        | .returns none => .returns errs
      else if i.name = "email" then
        match Email i.field with
        | some _ => .returns (errs ++ [i.Name ++ " must be a valid email address"])
        | none => .returns errs
      else if i.name = "min_length" then
        match MinLength i.field (Atoi i.options).1 with
        | some err =>
          .returns ((match (Atoi i.options).2 with
            | some _ => errs ++ ["invalid min_length options: " ++ i.options]
            | none => errs) ++ [err])
        | none =>
          .returns (match (Atoi i.options).2 with
            | some _ => errs ++ ["invalid min_length options: " ++ i.options]
            | none => errs)
      else if i.name = "max_length" then
        match MaxLength i.field (Atoi i.options).1 with
        | some err =>
          .returns ((match (Atoi i.options).2 with
            | some _ => errs ++ ["invalid max_length options: " ++ i.options]
            | none => errs) ++ [err])
        | none =>
          .returns (match (Atoi i.options).2 with
            | some _ => errs ++ ["invalid max_length options: " ++ i.options]
            | none => errs)
      else if i.name = "password" then
        if i.field.CanInterface i.flagRO = true then
          match Password i.field (v.parsePasswordRules i.options).1 with
          | some err =>
            .returns ((match (v.parsePasswordRules i.options).2 with
              | some _ => errs ++ ["invalid password options: " ++ i.options]
              | none => errs) ++ [err])
          | none =>
            .returns (match (v.parsePasswordRules i.options).2 with
              | some _ => errs ++ ["invalid password options: " ++ i.options]
              | none => errs)
        else .panics
      else .returns errs := by
  rfl

theorem messages_eq_nil_iff_passes (v : Validator) (i : Invocation) :
    i.passes v = true ↔ i.panics = false ∧ i.messages v = [] := by
  unfold Invocation.messages Invocation.passes Invocation.panics
  rw [applyRule_invocation]
  generalize i.name = n
  generalize i.options = o
  split_ifs with h1 h2 h3 h4 h5 h6
  · subst h1
    cases hR : Required i.flagRO i.field with
    | panics => simp
    | returns r => cases r <;> simp
  · subst h2
    cases hE : Email i.field <;> simp
  · subst h3
    generalize (Atoi o).2 = e
    generalize MinLength i.field (Atoi o).1 = m
    cases e <;> cases m <;> simp
  · subst h4
    generalize (Atoi o).2 = e
    generalize MaxLength i.field (Atoi o).1 = m
    cases e <;> cases m <;> simp
  · subst h5
    generalize v.parsePasswordRules o = p
    rcases p with ⟨pr, e⟩
    cases e <;> cases hp : Password i.field pr <;> simp_all
  · subst h5
    simp_all
  · simp [h1, h5]

theorem Validate_struct_eq (v : Validator) (typ : String) (fs : List Field) :
    v.Validate (.struct typ fs)
      = if (invocations false fs).any Invocation.panics = true then .panics
        else .returns
          (if (unionMessages v false fs).length > 0 then
            some (.validationErrors (unionMessages v false fs)) else none) := by
  simp only [Validator.Validate, structValidate_eq, List.nil_append]
  split_ifs <;> simp_all

theorem Validate_run (v : Validator) (data : Value) : v.ValidateRun data (v.Validate data) := by
  cases data
  case struct typ fs =>
    simp only [Validator.ValidateRun]
    refine ⟨_, StructRun_sequential v false fs, ?_⟩
    rw [Validate_struct_eq]
    split_ifs <;> simp_all [resultOf]
  all_goals simp only [Validator.ValidateRun, Validator.Validate]

theorem ValidateRun_struct (v : Validator) (typ : String) (fs : List Field)
    (r : Outcome (Option GoError)) (hr : v.ValidateRun (.struct typ fs) r) :
    if (invocations false fs).any Invocation.panics = true then r = .panics
    else ∃ collected, StructRun v false fs (.returns collected)
      ∧ collected.Perm (unionMessages v false fs)
      ∧ r = .returns
          (if collected.length > 0 then some (.validationErrors collected) else none) := by
  simp only [Validator.ValidateRun] at hr
  obtain ⟨run, hrun, rfl⟩ := hr
  have h := StructRun_outcome v false fs run hrun
  split_ifs at h ⊢
  · subst h
    rfl
  · obtain ⟨o, rfl, hperm⟩ := h
    exact ⟨o, hrun, hperm, rfl⟩

theorem any_panics_eq_false_iff (is : List Invocation) :
    ¬ (is.any Invocation.panics = true) ↔ ∀ i ∈ is, i.panics = false := by
  simp

theorem any_panics_iff (is : List Invocation) :
    is.any Invocation.panics = true ↔ ∃ i ∈ is, i.panics = true := by
  simp

theorem unionMessages_eq_nil (v : Validator) (sticky : Bool) (fs : List Field)
    (hpass : ∀ i ∈ invocations sticky fs, i.passes v = true) :
    unionMessages v sticky fs = [] := by
  simp only [unionMessages, List.flatMap_eq_nil_iff]
  intro i hi
  exact ((messages_eq_nil_iff_passes v i).1 (hpass i hi)).2

theorem no_panics_of_passes (v : Validator) (sticky : Bool) (fs : List Field)
    (hpass : ∀ i ∈ invocations sticky fs, i.passes v = true) :
    ¬ ((invocations sticky fs).any Invocation.panics = true) := by
  rw [any_panics_eq_false_iff]
  intro i hi
  exact ((messages_eq_nil_iff_passes v i).1 (hpass i hi)).1

theorem invocations_append (sticky : Bool) (a b : List Field) :
    invocations sticky (a ++ b) = invocations sticky a ++ invocations sticky b := by
  induction a with
  | nil => simp [invocations]
  | cons f a ih => simp [invocations, ih]

theorem unionMessages_append (v : Validator) (sticky : Bool) (a b : List Field) :
    unionMessages v sticky (a ++ b) = unionMessages v sticky a ++ unionMessages v sticky b := by
  simp [unionMessages, invocations_append]

theorem panics_eq_false_of_readable (i : Invocation) (hro : i.flagRO = false)
    (hk : i.field.Kind ≠ .invalid) : i.panics = false := by
  have hc : i.field.CanInterface i.flagRO = true := by
    simp [Value.CanInterface, hro, hk]
  have hR : Required i.flagRO i.field ≠ .panics := by
    unfold Required
    split <;> simp [hc]
  simp [Invocation.panics, hc, hR]

mutual
theorem allExported_readable :
    ∀ (fs : List Field), Field.allExported fs = true →
      ∀ i ∈ invocations false fs, i.flagRO = false ∧ i.field.Kind ≠ .invalid
  | [], _, i, hi => by simp [invocations] at hi
  | f :: rest, h, i, hi => by
    simp only [Field.allExported, Bool.and_eq_true] at h
    simp only [invocations, List.mem_append] at hi
    rcases hi with hi | hi
    · exact isExported_readable f h.1 i hi
    · exact allExported_readable rest h.2 i hi
theorem isExported_readable :
    ∀ (f : Field), Field.isExported f = true →
      ∀ i ∈ fieldInvocations false f, i.flagRO = false ∧ i.field.Kind ≠ .invalid
  | .mk Name tag j exported embedded (.struct typ fs), h, i, hi => by
    simp only [Field.isExported, Bool.and_eq_true] at h
    simp only [fieldInvocations, h.1, List.mem_append, List.mem_map] at hi
    rcases hi with ⟨rule, _, rfl⟩ | hi
    · simp [Value.Kind]
    · exact allExported_readable fs h.2 i (by simpa using hi)
  | .mk Name tag j exported embedded .invalid, h, i, hi => by
    simp [Field.isExported, Value.Kind] at h
  | .mk Name tag j exported embedded (.bool _ _), h, i, hi => by
    simp only [Field.isExported, Bool.and_eq_true] at h
    simp only [fieldInvocations, h.1, List.mem_map] at hi
    obtain ⟨rule, _, rfl⟩ := hi
    simp [Value.Kind]
  | .mk Name tag j exported embedded (.int k _ _), h, i, hi => by
    simp only [Field.isExported, Bool.and_eq_true] at h
    simp only [fieldInvocations, h.1, List.mem_map] at hi
    obtain ⟨rule, _, rfl⟩ := hi
    cases k <;> simp [Value.Kind, IntKind.toKind]
  | .mk Name tag j exported embedded (.float k _ _), h, i, hi => by
    simp only [Field.isExported, Bool.and_eq_true] at h
    simp only [fieldInvocations, h.1, List.mem_map] at hi
    obtain ⟨rule, _, rfl⟩ := hi
    cases k <;> simp [Value.Kind, FloatKind.toKind]
  | .mk Name tag j exported embedded (.str _ _), h, i, hi => by
    simp only [Field.isExported, Bool.and_eq_true] at h
    simp only [fieldInvocations, h.1, List.mem_map] at hi
    obtain ⟨rule, _, rfl⟩ := hi
    simp [Value.Kind]
  | .mk Name tag j exported embedded (.slice _ _), h, i, hi => by
    simp only [Field.isExported, Bool.and_eq_true] at h
    simp only [fieldInvocations, h.1, List.mem_map] at hi
    obtain ⟨rule, _, rfl⟩ := hi
    simp [Value.Kind]
  | .mk Name tag j exported embedded (.map _ _), h, i, hi => by
    simp only [Field.isExported, Bool.and_eq_true] at h
    simp only [fieldInvocations, h.1, List.mem_map] at hi
    obtain ⟨rule, _, rfl⟩ := hi
    simp [Value.Kind]
  | .mk Name tag j exported embedded (.array _ _), h, i, hi => by
    simp only [Field.isExported, Bool.and_eq_true] at h
    simp only [fieldInvocations, h.1, List.mem_map] at hi
    obtain ⟨rule, _, rfl⟩ := hi
    simp [Value.Kind]
  | .mk Name tag j exported embedded (.ptr _ _), h, i, hi => by
    simp only [Field.isExported, Bool.and_eq_true] at h
    simp only [fieldInvocations, h.1, List.mem_map] at hi
    obtain ⟨rule, _, rfl⟩ := hi
    simp [Value.Kind]
  | .mk Name tag j exported embedded (.iface _ _), h, i, hi => by
    simp only [Field.isExported, Bool.and_eq_true] at h
    simp only [fieldInvocations, h.1, List.mem_map] at hi
    obtain ⟨rule, _, rfl⟩ := hi
    simp [Value.Kind]
  | .mk Name tag j exported embedded (.ref k _ _), h, i, hi => by
    simp only [Field.isExported, Bool.and_eq_true] at h
    simp only [fieldInvocations, h.1, List.mem_map] at hi
    obtain ⟨rule, _, rfl⟩ := hi
    cases k <;> simp [Value.Kind, RefKind.toKind]
end

theorem no_panics_of_allExported (fs : List Field) (h : Field.allExported fs = true) :
    ∀ i ∈ invocations false fs, i.panics = false := by
  intro i hi
  have := allExported_readable fs h i hi
  exact panics_eq_false_of_readable i this.1 this.2

theorem resultMessages_ite (c : List String) :
    resultMessages (if c.length > 0 then some (GoError.validationErrors c) else none) = c := by
  cases c <;> simp [resultMessages]

/-- C1. A record all of whose rule invocations pass (nested records included; an invocation
that panics on a field read through an unexported one does not pass) is accepted:
`Validate` returns no error, under every schedule. `Validate` never returns an aggregate
without entries: unless a panic ends the call, what it returns is either no error or an
aggregate with at least one entry, and for a record it is no error exactly when the
collected aggregate is empty. The call is ended by a panic exactly when some invocation
panics. -/
theorem Validate_valid_record_no_error (v : Validator) (data : Value)
    (r : Outcome (Option GoError)) (hr : v.ValidateRun data r) :
    (∀ typ fs, data = .struct typ fs → (∀ i ∈ invocations false fs, i.passes v = true) →
        r = .returns none ∧ v.Validate data = .returns none)
    ∧ r ≠ .returns (some (.validationErrors []))
    ∧ (r = .panics ∨ r = .returns none
        ∨ ∃ ve, ve ≠ [] ∧ r = .returns (some (.validationErrors ve)))
    ∧ (∀ typ fs, data = .struct typ fs → (∀ i ∈ invocations false fs, i.panics = false) →
        ∃ collected, StructRun v false fs (.returns collected)
          ∧ (r = .returns none ↔ collected = [])
          ∧ (collected ≠ [] → r = .returns (some (.validationErrors collected))))
    ∧ (∀ typ fs, data = .struct typ fs →
        (r = .panics ↔ ∃ i ∈ invocations false fs, i.panics = true)) := by
  have key : ∀ typ fs, data = .struct typ fs →
      if (invocations false fs).any Invocation.panics = true then r = .panics
      else ∃ collected, StructRun v false fs (.returns collected)
        ∧ collected.Perm (unionMessages v false fs)
        ∧ r = .returns
            (if collected.length > 0 then some (.validationErrors collected) else none) := by
    intro typ fs hd
    subst hd
    exact ValidateRun_struct v typ fs r hr
  have shape : r = .panics ∨ r = .returns none
      ∨ ∃ ve, ve ≠ [] ∧ r = .returns (some (.validationErrors ve)) := by
    cases data
    case struct typ fs =>
      have h := key typ fs rfl
      split_ifs at h
      · exact Or.inl h
      · obtain ⟨c, -, -, rfl⟩ := h
        cases c with
        | nil => right; left; simp
        | cons m ms => right; right; exact ⟨m :: ms, by simp, by simp⟩
    all_goals
      simp only [Validator.ValidateRun] at hr
      right; right
      exact ⟨_, by simp, hr⟩
  refine ⟨?_, ?_, shape, ?_, ?_⟩
  · intro typ fs hd hpass
    have h := key typ fs hd
    rw [if_neg (no_panics_of_passes v false fs hpass)] at h
    obtain ⟨c, -, hperm, rfl⟩ := h
    rw [unionMessages_eq_nil v false fs hpass] at hperm
    have hc : c = [] := List.Perm.eq_nil hperm
    subst hc hd
    refine ⟨by simp, ?_⟩
    rw [Validate_struct_eq, if_neg (no_panics_of_passes v false fs hpass),
      unionMessages_eq_nil v false fs hpass]
    simp
  · rcases shape with h | h | ⟨ve, hve, h⟩
    · simp [h]
    · simp [h]
    · rw [h]
      intro hcontra
      apply hve
      simpa using hcontra
  · intro typ fs hd hread
    have h := key typ fs hd
    rw [if_neg ((any_panics_eq_false_iff _).2 hread)] at h
    obtain ⟨c, hc, -, rfl⟩ := h
    refine ⟨c, hc, ?_, ?_⟩
    · cases c <;> simp
    · intro hne
      cases c with
      | nil => exact absurd rfl hne
      | cons m ms => simp
  · intro typ fs hd
    have h := key typ fs hd
    rw [← any_panics_iff]
    split_ifs at h with hp
    · simp [h, hp]
    · obtain ⟨c, -, -, rfl⟩ := h
      simp [hp]

/-- The valid user of the example: every invocation passes and no error is returned. -/
theorem Validate_valid_record_no_error_witness :
    NewValidator.ValidateRun validUser (.returns none)
    ∧ (∀ i ∈ invocations false
          [ Field.mk "Username" "required,min_length=3,max_length=10" "" true false
              (.str "string" "codestack"),
            Field.mk "Email" "required,email" "" true false (.str "string" "user@example.com"),
            Field.mk "Password" "required,password" "" true false
              (.str "string" "Password123@#12") ],
        i.passes NewValidator = true)
    ∧ NewValidator.Validate validUser = .returns none :=
  have hrun : NewValidator.ValidateRun validUser (.returns none) := by
    have h := Validate_run NewValidator validUser
    have e : NewValidator.Validate validUser = .returns none := by decide
    rwa [e] at h
  have hpass : ∀ i ∈ invocations false
          [ Field.mk "Username" "required,min_length=3,max_length=10" "" true false
              (.str "string" "codestack"),
            Field.mk "Email" "required,email" "" true false (.str "string" "user@example.com"),
            Field.mk "Password" "required,password" "" true false
              (.str "string" "Password123@#12") ],
        i.passes NewValidator = true := by decide
  ⟨hrun, hpass,
    ((Validate_valid_record_no_error NewValidator validUser (.returns none) hrun).1
      "main.User" _ rfl hpass).2⟩

/-- C2. For every record and every schedule: a panic ends `Validate` exactly when some rule
invocation panics, which no invocation does when every field is exported; otherwise it
returns, and the messages it returns are a permutation of the union, over every field
(nested records included) and every rule invocation of its rule specification, of the
messages that invocation produces. In the schedule that runs the fields in order they are
that union in traversal order. Hence every message of every invocation is reported,
whatever the other invocations do. -/
theorem Validate_messages_are_union (v : Validator) (typ : String) (fs : List Field)
    (r : Outcome (Option GoError)) (hr : v.ValidateRun (.struct typ fs) r) :
    (r = .panics ↔ ∃ i ∈ invocations false fs, i.panics = true)
    ∧ (Field.allExported fs = true → ∀ i ∈ invocations false fs, i.panics = false)
    ∧ ((∀ i ∈ invocations false fs, i.panics = false) →
        ∃ res, r = .returns res
          ∧ (resultMessages res).Perm ((invocations false fs).flatMap (Invocation.messages v))
          ∧ (∃ res', v.Validate (.struct typ fs) = .returns res'
              ∧ resultMessages res' = (invocations false fs).flatMap (Invocation.messages v))
          ∧ (∀ i ∈ invocations false fs, ∀ m ∈ i.messages v, m ∈ resultMessages res)
          ∧ (∀ m ∈ resultMessages res, ∃ i ∈ invocations false fs, m ∈ i.messages v)) := by
  have h := ValidateRun_struct v typ fs r hr
  refine ⟨?_, no_panics_of_allExported fs, ?_⟩
  · rw [← any_panics_iff]
    split_ifs at h with hp
    · simp [h, hp]
    · obtain ⟨c, -, -, rfl⟩ := h
      simp [hp]
  · intro hread
    have hnp := (any_panics_eq_false_iff _).2 hread
    rw [if_neg hnp] at h
    obtain ⟨c, -, hperm, rfl⟩ := h
    refine ⟨_, rfl, ?_, ?_, ?_, ?_⟩
    · rw [resultMessages_ite]
      exact hperm
    · rw [Validate_struct_eq, if_neg hnp]
      exact ⟨_, rfl, resultMessages_ite _⟩
    · intro i hi m hm
      rw [resultMessages_ite]
      exact hperm.symm.subset (List.mem_flatMap.2 ⟨i, hi, hm⟩)
    · intro m hm
      rw [resultMessages_ite] at hm
      exact List.mem_flatMap.1 (hperm.subset hm)

/-- The invalid user of the example: an e-mail message and a password message are returned,
and the three invocations on `Username` produce nothing. -/
theorem Validate_messages_are_union_witness :
    NewValidator.ValidateRun invalidUser (NewValidator.Validate invalidUser)
    ∧ (∀ i ∈ invocations false
          [ Field.mk "Username" "required,min_length=3,max_length=10" "" true false
              (.str "string" "short"),
            Field.mk "Email" "required,email" "" true false (.str "string" "invalid-email"),
            Field.mk "Password" "required,password" "" true false (.str "string" "weak") ],
        i.panics = false)
    ∧ (∃ res, NewValidator.Validate invalidUser = .returns res
        ∧ (resultMessages res).Perm
          ["Email must be a valid email address",
           "password must have a minimum length of 8 characters"])
    ∧ (∀ rule ∈ Split "required,min_length=3,max_length=10" ',',
        Invocation.messages NewValidator ⟨"Username", false, .str "string" "short", rule⟩
          = []) :=
  have hread : ∀ i ∈ invocations false
          [ Field.mk "Username" "required,min_length=3,max_length=10" "" true false
              (.str "string" "short"),
            Field.mk "Email" "required,email" "" true false (.str "string" "invalid-email"),
            Field.mk "Password" "required,password" "" true false (.str "string" "weak") ],
        i.panics = false := by decide
  have h := (Validate_messages_are_union NewValidator "main.User" _
    (NewValidator.Validate invalidUser) (Validate_run NewValidator invalidUser)).2.2 hread
  ⟨Validate_run NewValidator invalidUser, hread,
    by
      obtain ⟨res, hres, hperm, -⟩ := h
      have e : (invocations false
          [ Field.mk "Username" "required,min_length=3,max_length=10" "" true false
              (.str "string" "short"),
            Field.mk "Email" "required,email" "" true false (.str "string" "invalid-email"),
            Field.mk "Password" "required,password" "" true false
              (.str "string" "weak") ]).flatMap
          (Invocation.messages NewValidator)
          = ["Email must be a valid email address",
             "password must have a minimum length of 8 characters"] := by decide
      rw [e] at hperm
      exact ⟨res, hres, hperm⟩,
    by decide⟩

/-- C3. A user whose only violated invocation is `min_length=3` on `Username`: `Validate`
returns one message, and that message does not contain the field name `Username`; the same
happens for `max_length` and `password`, whereas the messages of `required` and `email`
name the field. -/
theorem Validate_length_message_omits_field_name :
    ((invocations false
        [ Field.mk "Username" "required,min_length=3,max_length=10" "" true false
            (.str "string" "ab"),
          Field.mk "Email" "required,email" "" true false (.str "string" "user@example.com"),
          Field.mk "Password" "required,password" "" true false
            (.str "string" "Password123@#12") ]).filter
        (fun i => ! i.passes NewValidator)).map (fun i => (i.Name, i.rule))
      = [("Username", "min_length=3")]
    ∧ NewValidator.Validate (User "ab" "user@example.com" "Password123@#12")
      = .returns (some (.validationErrors
          ["field must have a minimum length of 3 characters"]))
    ∧ ¬ Contains "field must have a minimum length of 3 characters" "Username"
    ∧ NewValidator.Validate (User "codestack12" "user@example.com" "Password123@#12")
      = .returns (some (.validationErrors
          ["field must have a maximum length of 10 characters"]))
    ∧ NewValidator.Validate (User "codestack" "user@example.com" "weak")
      = .returns (some (.validationErrors
          ["password must have a minimum length of 8 characters"]))
    ∧ ¬ Contains "password must have a minimum length of 8 characters" "Password"
    ∧ NewValidator.Validate (User "codestack" "invalid-email" "Password123@#12")
      = .returns (some (.validationErrors ["Email must be a valid email address"])) := by
  decide

/-- C4 as stated fails. The profile of the example, whose nested `Address` has an empty
required `City`: the only message `Validate` returns is `City is required`, which does not
contain the outer field name `Address`. The traversal of a nested record appends to the
shared aggregate and never returns an error, so nothing is put in front of its messages. -/
theorem Validate_nested_message_omits_outer_name :
    NewValidator.Validate profileWithInvalidAddress
      = .returns (some (.validationErrors ["City is required"]))
    ∧ Contains "City is required" "City"
    ∧ ¬ Contains "City is required" "Address"
    ∧ (∀ (v : Validator) (sticky : Bool) (fs : List Field) (errs : ValidationErrors)
        (res : ValidationErrors × Option GoError),
        v.structValidate sticky fs errs = .returns res → res.2 = none) :=
  ⟨by decide, by decide, by decide, fun v sticky fs errs res h => by
    rw [structValidate_eq] at h
    split_ifs at h
    simp only [Outcome.returns.injEq] at h
    rw [← h]⟩

theorem fieldInvocations_subset (sticky : Bool) (fs : List Field) (f : Field) (hf : f ∈ fs) :
    ∀ i ∈ fieldInvocations sticky f, i ∈ invocations sticky fs := by
  induction fs with
  | nil => simp at hf
  | cons g rest ih =>
    intro i hi
    simp only [invocations, List.mem_append]
    rcases List.mem_cons.1 hf with rfl | hmem
    · exact Or.inl hi
    · exact Or.inr (ih hmem i hi)

theorem own_invocation_mem (sticky : Bool) (Name tag j : String) (exported embedded : Bool)
    (value : Value) (rule : String) (hrule : rule ∈ Split tag ',') :
    Invocation.mk Name (sticky || ! exported) value rule
      ∈ fieldInvocations sticky (.mk Name tag j exported embedded value) := by
  cases value <;>
    simp only [fieldInvocations, List.mem_append, List.mem_map] <;>
    first
      | exact ⟨rule, hrule, rfl⟩
      | exact Or.inl ⟨rule, hrule, rfl⟩

theorem nested_invocations_subset (sticky : Bool) (Name tag j typ : String)
    (exported embedded : Bool) (inner : List Field) :
    ∀ i ∈ invocations (sticky || (! exported && ! embedded)) inner,
      i ∈ fieldInvocations sticky (.mk Name tag j exported embedded (.struct typ inner)) := by
  intro i hi
  simp only [fieldInvocations, List.mem_append]
  exact Or.inr hi

theorem Contains_append_right (a b : String) : Contains (a ++ b) a := by
  unfold Contains
  rw [String.data_append]
  exact (List.prefix_append _ _).isInfix

/-- C4, amended. For every record with an exported nested-record field `F` that has an
exported inner field `G` tagged `required` whose value is empty, and on which no invocation
panics, the aggregate `Validate` returns under every schedule contains the message
`G is required`, which includes the inner field name `G`. The messages of the nested record
enter the flat aggregate exactly as the nested record's own validation produces them, with
nothing put in front. -/
theorem Validate_nested_required_names_inner_field (v : Validator) (typ : String)
    (fs : List Field) (r : Outcome (Option GoError))
    (F tagF jsonF typF : String) (embeddedF : Bool) (inner : List Field)
    (G tagG jsonG : String) (embeddedG : Bool) (value : Value) (reason : String)
    (hr : v.ValidateRun (.struct typ fs) r)
    (hread : ∀ i ∈ invocations false fs, i.panics = false)
    (hF : Field.mk F tagF jsonF true embeddedF (.struct typF inner) ∈ fs)
    (hG : Field.mk G tagG jsonG true embeddedG value ∈ inner)
    (hreq : "required" ∈ Split tagG ',')
    (hempty : Required false value = .returns (some reason)) :
    ∃ res, r = .returns res
      ∧ (G ++ " is required") ∈ resultMessages res
      ∧ Contains (G ++ " is required") G
      ∧ (∃ res', v.Validate (.struct typF inner) = .returns res'
          ∧ ∀ m ∈ resultMessages res', m ∈ resultMessages res) := by
  have hsub : ∀ i ∈ invocations false inner, i ∈ invocations false fs := by
    intro i hi
    apply fieldInvocations_subset false fs _ hF
    have := nested_invocations_subset false F tagF jsonF typF true embeddedF inner
    simp only [Bool.not_true, Bool.false_and, Bool.or_false] at this
    exact this i hi
  have hGi : Invocation.mk G false value "required" ∈ invocations false inner := by
    apply fieldInvocations_subset false inner _ hG
    have := own_invocation_mem false G tagG jsonG true embeddedG value "required" hreq
    simpa using this
  have hmsg : Invocation.messages v ⟨G, false, value, "required"⟩ = [G ++ " is required"] := by
    have e : SplitN2 "required" '=' = ["required"] := by decide
    simp [Invocation.messages, applyRule, e, hempty]
  have h := ValidateRun_struct v typ fs r hr
  rw [if_neg ((any_panics_eq_false_iff _).2 hread)] at h
  obtain ⟨c, -, hperm, rfl⟩ := h
  refine ⟨_, rfl, ?_, Contains_append_right _ _, ?_⟩
  · rw [resultMessages_ite]
    apply hperm.symm.subset
    exact List.mem_flatMap.2 ⟨_, hsub _ hGi, by simp [hmsg]⟩
  · have hinner : ¬ ((invocations false inner).any Invocation.panics = true) := by
      rw [any_panics_eq_false_iff]
      intro i hi
      exact hread i (hsub i hi)
    rw [Validate_struct_eq, if_neg hinner]
    refine ⟨_, rfl, ?_⟩
    intro m hm
    rw [resultMessages_ite] at hm ⊢
    obtain ⟨i, hi, hmi⟩ := List.mem_flatMap.1 hm
    exact hperm.symm.subset (List.mem_flatMap.2 ⟨i, hsub i hi, hmi⟩)

/-- The profile of the example: the message names `City`, and it is the message the address
gives when validated on its own. -/
theorem Validate_nested_required_names_inner_field_witness :
    NewValidator.ValidateRun profileWithInvalidAddress
        (NewValidator.Validate profileWithInvalidAddress)
    ∧ Required false (.str "string" "")
        = .returns (some "field is required and must not be empty")
    ∧ (∃ res, NewValidator.Validate profileWithInvalidAddress = .returns res
        ∧ "City is required" ∈ resultMessages res)
    ∧ NewValidator.Validate (Address "" "New York")
      = .returns (some (.validationErrors ["City is required"])) :=
  ⟨Validate_run _ _, by decide,
    by
      obtain ⟨res, hres, hmem, -⟩ :=
        Validate_nested_required_names_inner_field NewValidator "main.Profile"
          [ Field.mk "Name" "required" "" true false (.str "string" "John Doe"),
            Field.mk "Address" "required" "" true false (Address "" "New York") ]
          (NewValidator.Validate profileWithInvalidAddress)
          "Address" "required" "" "main.Address" false
          [ Field.mk "City" "required" "" true false (.str "string" ""),
            Field.mk "State" "required" "" true false (.str "string" "New York") ]
          "City" "required" "" false (.str "string" "")
          "field is required and must not be empty"
          (Validate_run _ _) (by decide) (by simp [Address]) (by simp) (by decide)
          (by decide)
      exact ⟨res, hres, by simpa using hmem⟩,
    by decide⟩

/-- C5. Once the validator carries the policy with every requirement off and minimum length
0, a `password` invocation without inline options on an exported field produces no message
on any value of type `string`: the resolver returns that policy without error, `Password`
accepts the value, a record holding such a field next to others comes to what the others
come to, and a record made of that field alone is accepted under every schedule. On an
unexported field the invocation panics. -/
theorem custom_policy_no_password_violation (v0 : Validator) (Name json typ s : String)
    (embedded : Bool) (pre post : List Field) (r : Outcome (Option GoError))
    (hr : (v0.SetCustomPasswordRules (some customPasswordRules)).ValidateRun
      (.struct typ [Field.mk Name "password" json true embedded (.str "string" s)]) r) :
    (v0.SetCustomPasswordRules (some customPasswordRules)).parsePasswordRules ""
      = (customPasswordRules, none)
    ∧ Password (.str "string" s) customPasswordRules = none
    ∧ Invocation.panics ⟨Name, false, .str "string" s, "password"⟩ = false
    ∧ Invocation.messages (v0.SetCustomPasswordRules (some customPasswordRules))
        ⟨Name, false, .str "string" s, "password"⟩ = []
    ∧ (v0.SetCustomPasswordRules (some customPasswordRules)).Validate
        (.struct typ
          (pre ++ Field.mk Name "password" json true embedded (.str "string" s) :: post))
      = (v0.SetCustomPasswordRules (some customPasswordRules)).Validate
        (.struct typ (pre ++ post))
    ∧ r = .returns none
    ∧ Invocation.panics ⟨Name, true, .str "string" s, "password"⟩ = true := by
  have hparse : (v0.SetCustomPasswordRules (some customPasswordRules)).parsePasswordRules ""
      = (customPasswordRules, none) := by
    simp [Validator.parsePasswordRules, Validator.SetCustomPasswordRules]
  have hpw : Password (.str "string" s) customPasswordRules = none := by
    simp [Password, Value.assertString, customPasswordRules]
  have hsplit : SplitN2 "password" '=' = ["password"] := by decide
  have hpanics : Invocation.panics ⟨Name, false, .str "string" s, "password"⟩ = false :=
    panics_eq_false_of_readable _ rfl (by simp [Value.Kind])
  have hmsg : Invocation.messages (v0.SetCustomPasswordRules (some customPasswordRules))
      ⟨Name, false, .str "string" s, "password"⟩ = [] := by
    simp [Invocation.messages, applyRule, hsplit, hparse, hpw, Value.CanInterface, Value.Kind]
  have hinv : invocations false
      [Field.mk Name "password" json true embedded (.str "string" s)]
      = [⟨Name, false, .str "string" s, "password"⟩] := by
    have : Split "password" ',' = ["password"] := by decide
    simp [invocations, fieldInvocations, this]
  have hunion : unionMessages (v0.SetCustomPasswordRules (some customPasswordRules)) false
      [Field.mk Name "password" json true embedded (.str "string" s)] = [] := by
    simp [unionMessages, hinv, hmsg]
  have hnp : ¬ ((invocations false
      [Field.mk Name "password" json true embedded (.str "string" s)]).any
        Invocation.panics = true) := by
    simp [hinv, hpanics]
  refine ⟨hparse, hpw, hpanics, hmsg, ?_, ?_, ?_⟩
  · have hcons : ∀ l : List Field,
        Field.mk Name "password" json true embedded (.str "string" s) :: l
          = [Field.mk Name "password" json true embedded (.str "string" s)] ++ l := by
      intro l; rfl
    rw [Validate_struct_eq, Validate_struct_eq, hcons, unionMessages_append,
      unionMessages_append, unionMessages_append, invocations_append, invocations_append,
      invocations_append, hunion, hinv]
    simp [hpanics]
  · have h := ValidateRun_struct _ typ _ r hr
    rw [if_neg hnp] at h
    obtain ⟨c, -, hperm, rfl⟩ := h
    rw [hunion] at hperm
    simp [List.Perm.eq_nil hperm]
  · simp [Invocation.panics, Invocation.name, hsplit, Value.CanInterface]

/-- The password `weak` of the example fails the default policy and produces no password
message after the override; the e-mail message of the invalid user stays. -/
theorem custom_policy_no_password_violation_witness :
    (NewValidator.SetCustomPasswordRules (some customPasswordRules)).ValidateRun
      (.struct "main.Login"
        [Field.mk "Password" "password" "" true false (.str "string" "weak")])
      (.returns none)
    ∧ Password (.str "string" "weak") DefaultPasswordRules
      = some "password must have a minimum length of 8 characters"
    ∧ Invocation.messages (NewValidator.SetCustomPasswordRules (some customPasswordRules))
        ⟨"Password", false, .str "string" "weak", "password"⟩ = []
    ∧ (NewValidator.SetCustomPasswordRules (some customPasswordRules)).Validate invalidUser
      = .returns (some (.validationErrors ["Email must be a valid email address"])) :=
  have hrun : (NewValidator.SetCustomPasswordRules (some customPasswordRules)).ValidateRun
      (.struct "main.Login"
        [Field.mk "Password" "password" "" true false (.str "string" "weak")])
      (.returns none) := by
    have h := Validate_run (NewValidator.SetCustomPasswordRules (some customPasswordRules))
      (.struct "main.Login"
        [Field.mk "Password" "password" "" true false (.str "string" "weak")])
    have e : (NewValidator.SetCustomPasswordRules (some customPasswordRules)).Validate
        (.struct "main.Login"
          [Field.mk "Password" "password" "" true false (.str "string" "weak")])
        = .returns none := by decide
    rwa [e] at h
  ⟨hrun, by decide,
    (custom_policy_no_password_violation NewValidator "Password" "" "main.Login" "weak"
      false [] [] (.returns none) hrun).2.2.2.1,
    by decide⟩

/-- C6. The tag `password=min_length=4,require_digits=false,require_uppercase=false,
require_special_chars=false` on the value `weak`: the rule list is cut at every comma
first, so the resolver is handed `min_length=4` alone, the other three sub-options become
rule invocations of unknown names, and `Validate` reports a missing digit; under the policy
the resolver builds from the whole sub-option list the value is accepted. -/
theorem Validate_password_suboptions_cut_at_comma :
    NewValidator.Validate (.struct "main.Account"
        [ Field.mk "Password"
            "password=min_length=4,require_digits=false,require_uppercase=false,require_special_chars=false"
            "" true false (.str "string" "weak") ])
      = .returns (some (.validationErrors ["password must contain at least one digit"]))
    ∧ (invocations false
        [ Field.mk "Password"
            "password=min_length=4,require_digits=false,require_uppercase=false,require_special_chars=false"
            "" true false (.str "string" "weak") ]).map (fun i => (i.name, i.options))
      = [ ("password", "min_length=4"), ("require_digits", "false"),
          ("require_uppercase", "false"), ("require_special_chars", "false") ]
    ∧ NewValidator.parsePasswordRules
        "min_length=4,require_digits=false,require_uppercase=false,require_special_chars=false"
      = ({ MinLength := 4, RequireDigits := false, RequireUppercase := false,
           RequireLowercase := true, RequireSpecialChars := false }, none)
    ∧ Password (.str "string" "weak")
        { MinLength := 4, RequireDigits := false, RequireUppercase := false,
          RequireLowercase := true, RequireSpecialChars := false } = none := by
  decide

/-- C7. The invocation `max_length=abc` on the non-empty string `weak`: the options do not
parse, the message `invalid max_length options: abc` is added, and the length check still
runs with the bound 0 and adds a second message. `min_length=abc` on the same value adds
the first message only. -/
theorem invalid_max_length_still_checked :
    (Atoi "abc").2 = some NumError.ErrSyntax
    ∧ applyRule NewValidator "Username" false (.str "string" "weak") [] "max_length=abc"
      = .returns ["invalid max_length options: abc",
          "field must have a maximum length of 0 characters"]
    ∧ applyRule NewValidator "Username" false (.str "string" "weak") [] "min_length=abc"
      = .returns ["invalid min_length options: abc"]
    ∧ NewValidator.Validate (.struct "main.Account"
        [Field.mk "Username" "max_length=abc" "" true false (.str "string" "weak")])
      = .returns (some (.validationErrors
          ["invalid max_length options: abc",
           "field must have a maximum length of 0 characters"])) := by
  decide

theorem cutChars_eq_none_iff (sep : Char) (cs : List Char) :
    cutChars sep cs = none ↔ sep ∉ cs := by
  induction cs with
  | nil => simp [cutChars]
  | cons c cs ih =>
    unfold cutChars
    by_cases h : c = sep
    · simp [h]
    · simp only [h, if_false]
      cases hc : cutChars sep cs with
      | none =>
        have := ih.1 hc
        simp [this, Ne.symm h]
      | some p =>
        have hne : ¬ (sep ∉ cs) := fun hn => by
          have := ih.2 hn
          rw [hc] at this
          exact absurd this (by simp)
        simp only [not_not] at hne
        simp [hne]

theorem SplitN2_of_not_mem (part : String) (sep : Char) (h : sep ∉ part.data) :
    SplitN2 part sep = [part] := by
  unfold SplitN2
  rw [(cutChars_eq_none_iff sep part.data).2 h]

theorem SplitN2_of_mem (part : String) (sep : Char) (h : sep ∈ part.data) :
    ∃ key val, SplitN2 part sep = [key, val] := by
  unfold SplitN2
  cases hc : cutChars sep part.data with
  | none => exact absurd h ((cutChars_eq_none_iff sep part.data).1 hc)
  | some p => exact ⟨String.mk p.1, String.mk p.2, rfl⟩

theorem parsePasswordParts_malformed (parts : List String) (customRules : PasswordRules)
    (h : ∃ part ∈ parts, '=' ∉ part.data) :
    parsePasswordParts parts customRules
      = (DefaultPasswordRules, some "invalid password rule format") := by
  induction parts generalizing customRules with
  | nil => simp at h
  | cons part parts ih =>
    unfold parsePasswordParts
    by_cases hp : '=' ∈ part.data
    · obtain ⟨key, val, hkv⟩ := SplitN2_of_mem part '=' hp
      rw [hkv]
      simp only []
      apply ih
      obtain ⟨q, hq, hqn⟩ := h
      rcases List.mem_cons.1 hq with rfl | hq
      · exact absurd hp hqn
      · exact ⟨q, hq, hqn⟩
    · rw [SplitN2_of_not_mem part '=' hp]

theorem parsePasswordParts_wellformed (parts : List String) (customRules : PasswordRules)
    (h : ∀ part ∈ parts, '=' ∈ part.data) :
    (parsePasswordParts parts customRules).2 = none := by
  induction parts generalizing customRules with
  | nil => simp [parsePasswordParts]
  | cons part parts ih =>
    unfold parsePasswordParts
    obtain ⟨key, val, hkv⟩ := SplitN2_of_mem part '=' (h part (List.mem_cons_self _ _))
    rw [hkv]
    simp only []
    exact ih _ (fun q hq => h q (List.mem_cons_of_mem _ hq))

theorem parsePasswordRules_nonempty (v : Validator) (options : String) (hne : options ≠ "") :
    v.parsePasswordRules options = parsePasswordParts (Split options ',') v.basePolicy := by
  unfold Validator.parsePasswordRules Validator.basePolicy
  simp [hne]

theorem parsePasswordParts_pairs (pairs : List (String × String)) :
    ∀ (parts : List String) (customRules : PasswordRules),
      parts.map (fun part => SplitN2 part '=') = pairs.map (fun p => [p.1, p.2]) →
      parsePasswordParts parts customRules
        = (pairs.foldl (fun acc p => applyPasswordOption acc p.1 p.2) customRules, none) := by
  induction pairs with
  | nil =>
    intro parts customRules h
    cases parts with
    | nil => simp [parsePasswordParts]
    | cons a as => simp at h
  | cons p ps ih =>
    intro parts customRules h
    cases parts with
    | nil => simp at h
    | cons a as =>
      simp only [List.map_cons, List.cons.injEq] at h
      unfold parsePasswordParts
      rw [h.1]
      simp only [List.foldl_cons]
      exact ih as _ h.2

theorem ParseBool_fst_of_error (val : String) (h : (ParseBool val).2 ≠ none) :
    (ParseBool val).1 = false := by
  unfold ParseBool at h ⊢
  split_ifs at h ⊢ <;> simp_all

theorem givenBool_of_ok (val : String) (h : (ParseBool val).2 = none) :
    givenBool val = some (ParseBool val).1 := by
  unfold givenBool
  rcases hp : ParseBool val with ⟨b, e⟩
  rw [hp] at h
  simp only at h
  subst h
  rfl

theorem givenInt_of_ok (val : String) (h : (Atoi val).2 = none) :
    givenInt val = some (Atoi val).1 := by
  unfold givenInt
  rcases hp : Atoi val with ⟨b, e⟩
  rw [hp] at h
  simp only at h
  subst h
  rfl

theorem lastGiven_mem (key : String) (pairs : List (String × String)) (x : String)
    (h : lastGiven key pairs = some x) : (key, x) ∈ pairs := by
  induction pairs with
  | nil => simp [lastGiven] at h
  | cons p ps ih =>
    obtain ⟨k, val⟩ := p
    unfold lastGiven at h
    cases hl : lastGiven key ps with
    | some y =>
      rw [hl] at h
      simp only [Option.some.injEq] at h
      subst h
      exact List.mem_cons_of_mem _ (ih hl)
    | none =>
      rw [hl] at h
      simp only at h
      by_cases hk : k = key
      · simp only [hk, if_true, Option.some.injEq] at h
        subst h hk
        exact List.mem_cons_self _ _
      · simp [hk] at h

theorem foldl_applyPasswordOption_eq_merged (pairs : List (String × String)) :
    ∀ (base : PasswordRules),
      (∀ p ∈ pairs, p.1 = "min_length" → (Atoi p.2).2 = none) →
      (∀ p ∈ pairs,
        p.1 ∈ ["require_digits", "require_uppercase", "require_lowercase",
          "require_special_chars"] → (ParseBool p.2).2 = none) →
      pairs.foldl (fun acc p => applyPasswordOption acc p.1 p.2) base
        = mergedPolicy base pairs := by
  induction pairs with
  | nil => intro base _ _; simp [mergedPolicy, lastGiven]
  | cons p ps ih =>
    intro base hint hbool
    obtain ⟨k, val⟩ := p
    simp only [List.foldl_cons]
    rw [ih _ (fun q hq => hint q (List.mem_cons_of_mem _ hq))
      (fun q hq => hbool q (List.mem_cons_of_mem _ hq))]
    have hi := hint (k, val) (List.mem_cons_self _ _)
    have hb := hbool (k, val) (List.mem_cons_self _ _)
    simp only at hi hb
    simp only [mergedPolicy, lastGiven, PasswordRules.mk.injEq]
    refine ⟨?_, ?_, ?_, ?_, ?_⟩
    · cases hl : lastGiven "min_length" ps with
      | some x =>
        have hx := hint _ (List.mem_cons_of_mem _ (lastGiven_mem _ _ _ hl)) rfl
        simp [givenInt_of_ok x hx]
      | none =>
        by_cases hk : k = "min_length"
        · simp [hk, applyPasswordOption, givenInt_of_ok val (hi hk)]
        · simp only [hk, if_false, Option.none_bind, Option.getD_none]
          unfold applyPasswordOption
          split_ifs <;> rfl
    · cases hl : lastGiven "require_digits" ps with
      | some x =>
        have hx := hbool _ (List.mem_cons_of_mem _ (lastGiven_mem _ _ _ hl)) (by simp)
        simp [givenBool_of_ok x hx]
      | none =>
        by_cases hk : k = "require_digits"
        · simp [hk, applyPasswordOption, givenBool_of_ok val (hb (by simp [hk]))]
        · simp only [hk, if_false, Option.none_bind, Option.getD_none]
          unfold applyPasswordOption
          split_ifs <;> rfl
    · cases hl : lastGiven "require_uppercase" ps with
      | some x =>
        have hx := hbool _ (List.mem_cons_of_mem _ (lastGiven_mem _ _ _ hl)) (by simp)
        simp [givenBool_of_ok x hx]
      | none =>
        by_cases hk : k = "require_uppercase"
        · simp [hk, applyPasswordOption, givenBool_of_ok val (hb (by simp [hk]))]
        · simp only [hk, if_false, Option.none_bind, Option.getD_none]
          unfold applyPasswordOption
          split_ifs <;> rfl
    · cases hl : lastGiven "require_lowercase" ps with
      | some x =>
        have hx := hbool _ (List.mem_cons_of_mem _ (lastGiven_mem _ _ _ hl)) (by simp)
        simp [givenBool_of_ok x hx]
      | none =>
        by_cases hk : k = "require_lowercase"
        · simp [hk, applyPasswordOption, givenBool_of_ok val (hb (by simp [hk]))]
        · simp only [hk, if_false, Option.none_bind, Option.getD_none]
          unfold applyPasswordOption
          split_ifs <;> rfl
    · cases hl : lastGiven "require_special_chars" ps with
      | some x =>
        have hx := hbool _ (List.mem_cons_of_mem _ (lastGiven_mem _ _ _ hl)) (by simp)
        simp [givenBool_of_ok x hx]
      | none =>
        by_cases hk : k = "require_special_chars"
        · simp [hk, applyPasswordOption, givenBool_of_ok val (hb (by simp [hk]))]
        · simp only [hk, if_false, Option.none_bind, Option.getD_none]
          unfold applyPasswordOption
          split_ifs <;> rfl

theorem lastGiven_eq_none (key : String) (pairs : List (String × String))
    (h : ∀ p ∈ pairs, p.1 ≠ key) : lastGiven key pairs = none := by
  induction pairs with
  | nil => rfl
  | cons p ps ih =>
    obtain ⟨k, val⟩ := p
    have hk : k ≠ key := h (k, val) (List.mem_cons_self _ _)
    simp [lastGiven, ih (fun q hq => h q (List.mem_cons_of_mem _ hq)), hk]

theorem Atoi_fst_of_syntax (val : String) (h : (Atoi val).2 = some NumError.ErrSyntax) :
    (Atoi val).1 = 0 := by
  unfold Atoi at h ⊢
  split
  · rfl
  · rename_i c cs hcs
    simp only [hcs] at h
    revert h
    simp only []
    split
    · intro _; rfl
    · rename_i un e hne hpu
      split_ifs <;> simp

theorem Atoi_fst_of_range (val : String) (h : (Atoi val).2 = some NumError.ErrRange) :
    (Atoi val).1 = maxInt64 ∨ (Atoi val).1 = minInt64 := by
  unfold Atoi at h ⊢
  split
  · rename_i hcs
    simp [hcs] at h
  · rename_i c cs hcs
    simp only [hcs] at h
    revert h
    simp only []
    split
    · intro h; simp at h
    · rename_i un e hne hpu
      split_ifs <;> simp

/-- C8. The password resolver merges inline options over the validator's custom policy over
the built-in default. Without options it returns the base policy, which is the default
(minimum length 8, the four requirements on) when no custom policy is set. For options whose
comma-separated parts are `key=value` pairs with parseable values it returns, without
error, the base policy with the fields named by the recognized keys overwritten by the
values given and every other field kept; a key that is not recognized changes nothing. -/
theorem parsePasswordRules_merges_by_priority (v : Validator) (options : String)
    (pairs : List (String × String))
    (hne : options ≠ "")
    (hpairs : (Split options ',').map (fun part => SplitN2 part '=')
      = pairs.map (fun p => [p.1, p.2]))
    (hint : ∀ p ∈ pairs, p.1 = "min_length" → (Atoi p.2).2 = none)
    (hbool : ∀ p ∈ pairs,
      p.1 ∈ ["require_digits", "require_uppercase", "require_lowercase",
        "require_special_chars"] → (ParseBool p.2).2 = none) :
    v.parsePasswordRules options = (mergedPolicy v.basePolicy pairs, none)
    ∧ v.parsePasswordRules "" = (v.basePolicy, none)
    ∧ (v.customPasswordRules = none → v.basePolicy = DefaultPasswordRules)
    ∧ (∀ custom, v.customPasswordRules = some custom → v.basePolicy = custom)
    ∧ DefaultPasswordRules
      = { MinLength := 8, RequireDigits := true, RequireUppercase := true,
          RequireLowercase := true, RequireSpecialChars := true }
    ∧ ((∀ p ∈ pairs, p.1 ≠ "min_length") →
        (v.parsePasswordRules options).1.MinLength = v.basePolicy.MinLength)
    ∧ ((∀ p ∈ pairs, p.1 ≠ "require_digits") →
        (v.parsePasswordRules options).1.RequireDigits = v.basePolicy.RequireDigits)
    ∧ ((∀ p ∈ pairs, p.1 ≠ "require_uppercase") →
        (v.parsePasswordRules options).1.RequireUppercase = v.basePolicy.RequireUppercase)
    ∧ ((∀ p ∈ pairs, p.1 ≠ "require_lowercase") →
        (v.parsePasswordRules options).1.RequireLowercase = v.basePolicy.RequireLowercase)
    ∧ ((∀ p ∈ pairs, p.1 ≠ "require_special_chars") →
        (v.parsePasswordRules options).1.RequireSpecialChars
          = v.basePolicy.RequireSpecialChars)
    ∧ (∀ val, lastGiven "min_length" pairs = some val →
        (v.parsePasswordRules options).1.MinLength = (Atoi val).1)
    ∧ (∀ val, lastGiven "require_digits" pairs = some val →
        (v.parsePasswordRules options).1.RequireDigits = (ParseBool val).1)
    ∧ (∀ val, lastGiven "require_uppercase" pairs = some val →
        (v.parsePasswordRules options).1.RequireUppercase = (ParseBool val).1)
    ∧ (∀ val, lastGiven "require_lowercase" pairs = some val →
        (v.parsePasswordRules options).1.RequireLowercase = (ParseBool val).1)
    ∧ (∀ val, lastGiven "require_special_chars" pairs = some val →
        (v.parsePasswordRules options).1.RequireSpecialChars = (ParseBool val).1) := by
  have hmain : v.parsePasswordRules options = (mergedPolicy v.basePolicy pairs, none) := by
    rw [parsePasswordRules_nonempty v options hne,
      parsePasswordParts_pairs pairs _ _ hpairs,
      foldl_applyPasswordOption_eq_merged pairs _ hint hbool]
  have hempty : v.parsePasswordRules "" = (v.basePolicy, none) := by
    unfold Validator.parsePasswordRules Validator.basePolicy
    cases v.customPasswordRules <;> simp
  have hb : ∀ val, (key : String) →
      key ∈ ["require_digits", "require_uppercase", "require_lowercase",
        "require_special_chars"] →
      lastGiven key pairs = some val → givenBool val = some (ParseBool val).1 :=
    fun val key hk hl => givenBool_of_ok val (hbool _ (lastGiven_mem _ _ _ hl) hk)
  refine ⟨hmain, hempty, ?_, ?_, rfl, ?_, ?_, ?_, ?_, ?_, ?_, ?_, ?_, ?_, ?_⟩
  · intro h; simp [Validator.basePolicy, h]
  · intro c h; simp [Validator.basePolicy, h]
  · intro h; simp [hmain, mergedPolicy, lastGiven_eq_none _ _ h]
  · intro h; simp [hmain, mergedPolicy, lastGiven_eq_none _ _ h]
  · intro h; simp [hmain, mergedPolicy, lastGiven_eq_none _ _ h]
  · intro h; simp [hmain, mergedPolicy, lastGiven_eq_none _ _ h]
  · intro h; simp [hmain, mergedPolicy, lastGiven_eq_none _ _ h]
  · intro val hl
    have := givenInt_of_ok val (hint _ (lastGiven_mem _ _ _ hl) rfl)
    simp [hmain, mergedPolicy, hl, this]
  · intro val hl
    simp [hmain, mergedPolicy, hl, hb val _ (by simp) hl]
  · intro val hl
    simp [hmain, mergedPolicy, hl, hb val _ (by simp) hl]
  · intro val hl
    simp [hmain, mergedPolicy, hl, hb val _ (by simp) hl]
  · intro val hl
    simp [hmain, mergedPolicy, hl, hb val _ (by simp) hl]

/-- Inline options over a custom policy: `min_length` and `require_digits` are overwritten,
the unknown key `max_age` changes nothing, the other fields are those of the custom policy. -/
theorem parsePasswordRules_merges_by_priority_witness :
    ("min_length=4,require_digits=true,max_age=3" ≠ "")
    ∧ (Split "min_length=4,require_digits=true,max_age=3" ',').map
        (fun part => SplitN2 part '=')
      = [("min_length", "4"), ("require_digits", "true"), ("max_age", "3")].map
        (fun p => [p.1, p.2])
    ∧ ({ customPasswordRules := some customPasswordRules } : Validator).parsePasswordRules
        "min_length=4,require_digits=true,max_age=3"
      = ({ MinLength := 4, RequireDigits := true, RequireUppercase := false,
           RequireLowercase := false, RequireSpecialChars := false }, none) :=
  ⟨by decide, by decide,
    (parsePasswordRules_merges_by_priority { customPasswordRules := some customPasswordRules }
      "min_length=4,require_digits=true,max_age=3"
      [("min_length", "4"), ("require_digits", "true"), ("max_age", "3")]
      (by decide) (by decide) (by decide) (by decide)).1.trans (by decide)⟩

/-- C9 as stated fails: `require_digits=maybe` does not parse, and the field `RequireDigits`,
which the default policy has on, comes back off; `min_length=abc` turns the default minimum
length 8 into 0. -/
theorem conversion_failure_not_left_at_prior_value :
    (ParseBool "maybe").2 = some NumError.ErrSyntax
    ∧ DefaultPasswordRules.RequireDigits = true
    ∧ (NewValidator.parsePasswordRules "require_digits=maybe").1.RequireDigits = false
    ∧ (NewValidator.parsePasswordRules "require_digits=maybe").2 = none
    ∧ (Atoi "abc").2 = some NumError.ErrSyntax
    ∧ DefaultPasswordRules.MinLength = 8
    ∧ (NewValidator.parsePasswordRules "min_length=abc").1.MinLength = 0
    ∧ (NewValidator.parsePasswordRules "min_length=abc").2 = none := by
  decide

/-- C9, amended. In the password resolver a recognized sub-option whose value fails
conversion raises no error and the loop goes on to the next pair; the policy field is
overwritten with the value the failed conversion hands back: `false` for a boolean, 0 for
an integer with invalid syntax, the largest or smallest 64-bit integer for one out of
range. The other fields are untouched. -/
theorem conversion_failure_overwrites_field (customRules : PasswordRules) (val : String) :
    ((ParseBool val).2 ≠ none →
      applyPasswordOption customRules "require_digits" val
        = { customRules with RequireDigits := false }
      ∧ applyPasswordOption customRules "require_uppercase" val
        = { customRules with RequireUppercase := false }
      ∧ applyPasswordOption customRules "require_lowercase" val
        = { customRules with RequireLowercase := false }
      ∧ applyPasswordOption customRules "require_special_chars" val
        = { customRules with RequireSpecialChars := false })
    ∧ ((Atoi val).2 = some NumError.ErrSyntax →
      applyPasswordOption customRules "min_length" val = { customRules with MinLength := 0 })
    ∧ ((Atoi val).2 = some NumError.ErrRange →
      applyPasswordOption customRules "min_length" val
        = { customRules with MinLength := maxInt64 }
      ∨ applyPasswordOption customRules "min_length" val
        = { customRules with MinLength := minInt64 })
    ∧ (∀ (part key : String) (parts : List String), SplitN2 part '=' = [key, val] →
      parsePasswordParts (part :: parts) customRules
        = parsePasswordParts parts (applyPasswordOption customRules key val)) := by
  refine ⟨?_, ?_, ?_, ?_⟩
  · intro h
    have hf := ParseBool_fst_of_error val h
    simp [applyPasswordOption, hf]
  · intro h
    have hf := Atoi_fst_of_syntax val h
    simp [applyPasswordOption, hf]
  · intro h
    rcases Atoi_fst_of_range val h with hf | hf
    · left; simp [applyPasswordOption, hf]
    · right; simp [applyPasswordOption, hf]
  · intro part key parts hs
    rw [parsePasswordParts, hs]

/-- The values `maybe`, `abc` and a twenty-digit number on the default policy. -/
theorem conversion_failure_overwrites_field_witness :
    (ParseBool "maybe").2 ≠ none
    ∧ applyPasswordOption DefaultPasswordRules "require_digits" "maybe"
      = { DefaultPasswordRules with RequireDigits := false }
    ∧ (Atoi "abc").2 = some NumError.ErrSyntax
    ∧ applyPasswordOption DefaultPasswordRules "min_length" "abc"
      = { DefaultPasswordRules with MinLength := 0 }
    ∧ (Atoi "99999999999999999999").2 = some NumError.ErrRange
    ∧ applyPasswordOption DefaultPasswordRules "min_length" "99999999999999999999"
      = { DefaultPasswordRules with MinLength := 9223372036854775807 } :=
  ⟨by decide,
    ((conversion_failure_overwrites_field DefaultPasswordRules "maybe").1 (by decide)).1,
    by decide,
    (conversion_failure_overwrites_field DefaultPasswordRules "abc").2.1 (by decide),
    by decide, by decide⟩

/-- C10. For non-empty options in which some comma-separated part has no `=`, the password
resolver returns the built-in default policy together with an error, whatever custom policy
the validator carries and whatever pairs precede the malformed part; for options all of
whose parts contain `=` it returns no error. -/
theorem parsePasswordRules_malformed_pair (v : Validator) (options : String) :
    (options ≠ "" → (∃ part ∈ Split options ',', '=' ∉ part.data) →
      v.parsePasswordRules options
        = (DefaultPasswordRules, some "invalid password rule format"))
    ∧ ((∀ part ∈ Split options ',', '=' ∈ part.data) →
      (v.parsePasswordRules options).2 = none) := by
  constructor
  · intro hne h
    rw [parsePasswordRules_nonempty v options hne]
    exact parsePasswordParts_malformed _ _ h
  · intro h
    have hne : options ≠ "" := by
      rintro rfl
      have := h "" (by decide)
      simp at this
    rw [parsePasswordRules_nonempty v options hne]
    exact parsePasswordParts_wellformed _ _ h

/-- A validator with the custom policy of the example: a well-formed pair followed by a part
without `=` gives the default policy and an error; the well-formed pair alone gives none. -/
theorem parsePasswordRules_malformed_pair_witness :
    ("min_length=4,require_digits" ≠ "")
    ∧ (∃ part ∈ Split "min_length=4,require_digits" ',', '=' ∉ part.data)
    ∧ ({ customPasswordRules := some customPasswordRules } : Validator).parsePasswordRules
        "min_length=4,require_digits"
      = (DefaultPasswordRules, some "invalid password rule format")
    ∧ (∀ part ∈ Split "min_length=4" ',', '=' ∈ part.data)
    ∧ (({ customPasswordRules := some customPasswordRules } : Validator).parsePasswordRules
        "min_length=4").2 = none :=
  ⟨by decide, by decide,
    (parsePasswordRules_malformed_pair { customPasswordRules := some customPasswordRules }
      "min_length=4,require_digits").1 (by decide) (by decide),
    by decide,
    (parsePasswordRules_malformed_pair { customPasswordRules := some customPasswordRules }
      "min_length=4").2 (by decide)⟩

theorem any_eq_true_iff_exists (cs : List Char) (p : Char → Bool) :
    cs.any p = true ↔ ∃ c ∈ cs, p c = true := by
  simp [List.any_eq_true]

theorem containsDigits_iff (s : String) :
    containsDigits s = true ↔ ∃ c ∈ s.data, '0' ≤ c ∧ c ≤ '9' := by
  simp [containsDigits, List.any_eq_true]

theorem containsUppercase_iff (s : String) :
    containsUppercase s = true ↔ ∃ c ∈ s.data, 'A' ≤ c ∧ c ≤ 'Z' := by
  simp [containsUppercase, List.any_eq_true]

theorem containsLowercase_iff (s : String) :
    containsLowercase s = true ↔ ∃ c ∈ s.data, 'a' ≤ c ∧ c ≤ 'z' := by
  simp [containsLowercase, List.any_eq_true]

theorem containsSpecialChars_iff (s : String) :
    containsSpecialChars s = true ↔ ∃ c ∈ s.data, c ∈ specialChars.data := by
  simp [containsSpecialChars, List.any_eq_true]

theorem Password_str (typ s : String) (rules : PasswordRules) (h : typ = "string") :
    Password (.str typ s) rules =
      if (s.utf8ByteSize : Int) < rules.MinLength then
        some ("password must have a minimum length of " ++ fmtInt rules.MinLength
          ++ " characters")
      else if rules.RequireDigits && ! containsDigits s then
        some "password must contain at least one digit"
      else if rules.RequireUppercase && ! containsUppercase s then
        some "password must contain at least one uppercase letter"
      else if rules.RequireLowercase && ! containsLowercase s then
        some "password must contain at least one lowercase letter"
      else if rules.RequireSpecialChars && ! containsSpecialChars s then
        some "password must contain at least one special character"
      else none := by
  subst h
  simp [Password, Value.assertString]

theorem Password_eq_none_iff (s : String) (rules : PasswordRules) :
    Password (.str "string" s) rules = none ↔
      rules.MinLength ≤ (s.utf8ByteSize : Int)
      ∧ (rules.RequireDigits = true → containsDigits s = true)
      ∧ (rules.RequireUppercase = true → containsUppercase s = true)
      ∧ (rules.RequireLowercase = true → containsLowercase s = true)
      ∧ (rules.RequireSpecialChars = true → containsSpecialChars s = true) := by
  rw [Password_str "string" s rules rfl]
  split_ifs <;> simp_all

theorem assertString_of_kind (field : Value) (hs : field.Kind ≠ .string)
    (hi : field.Kind ≠ .interface) : field.assertString = none := by
  cases field <;> simp_all [Value.Kind, Value.assertString]

/-- C11. The rule `Password` fails on every value that is not a `string`. On a string it
succeeds exactly when the length is at least `MinLength` and, for each enabled requirement,
the string holds a digit, an uppercase letter, a lowercase letter, one of the special
characters. When it fails the reason is that of the first failing check in the order
length, digit, uppercase, lowercase, special character; a requirement that is off never
makes it fail. -/
theorem Password_succeeds_iff_policy_met (field : Value) (s : String) (rules : PasswordRules) :
    (field.assertString = none →
      Password field rules = some "invalid field type for password validation")
    ∧ (field.Kind ≠ .string → field.Kind ≠ .interface →
      Password field rules = some "invalid field type for password validation")
    ∧ (Password (.str "string" s) rules = none ↔
        rules.MinLength ≤ (s.utf8ByteSize : Int)
        ∧ (rules.RequireDigits = true → ∃ c ∈ s.data, '0' ≤ c ∧ c ≤ '9')
        ∧ (rules.RequireUppercase = true → ∃ c ∈ s.data, 'A' ≤ c ∧ c ≤ 'Z')
        ∧ (rules.RequireLowercase = true → ∃ c ∈ s.data, 'a' ≤ c ∧ c ≤ 'z')
        ∧ (rules.RequireSpecialChars = true → ∃ c ∈ s.data, c ∈ specialChars.data))
    ∧ ((s.utf8ByteSize : Int) < rules.MinLength →
      Password (.str "string" s) rules
        = some ("password must have a minimum length of " ++ fmtInt rules.MinLength
            ++ " characters"))
    ∧ (rules.MinLength ≤ (s.utf8ByteSize : Int) →
      rules.RequireDigits = true → (¬ ∃ c ∈ s.data, '0' ≤ c ∧ c ≤ '9') →
      Password (.str "string" s) rules = some "password must contain at least one digit")
    ∧ (rules.MinLength ≤ (s.utf8ByteSize : Int) →
      (rules.RequireDigits = true → ∃ c ∈ s.data, '0' ≤ c ∧ c ≤ '9') →
      rules.RequireUppercase = true → (¬ ∃ c ∈ s.data, 'A' ≤ c ∧ c ≤ 'Z') →
      Password (.str "string" s) rules
        = some "password must contain at least one uppercase letter")
    ∧ (rules.MinLength ≤ (s.utf8ByteSize : Int) →
      (rules.RequireDigits = true → ∃ c ∈ s.data, '0' ≤ c ∧ c ≤ '9') →
      (rules.RequireUppercase = true → ∃ c ∈ s.data, 'A' ≤ c ∧ c ≤ 'Z') →
      rules.RequireLowercase = true → (¬ ∃ c ∈ s.data, 'a' ≤ c ∧ c ≤ 'z') →
      Password (.str "string" s) rules
        = some "password must contain at least one lowercase letter")
    ∧ (rules.MinLength ≤ (s.utf8ByteSize : Int) →
      (rules.RequireDigits = true → ∃ c ∈ s.data, '0' ≤ c ∧ c ≤ '9') →
      (rules.RequireUppercase = true → ∃ c ∈ s.data, 'A' ≤ c ∧ c ≤ 'Z') →
      (rules.RequireLowercase = true → ∃ c ∈ s.data, 'a' ≤ c ∧ c ≤ 'z') →
      rules.RequireSpecialChars = true → (¬ ∃ c ∈ s.data, c ∈ specialChars.data) →
      Password (.str "string" s) rules
        = some "password must contain at least one special character") := by
  have hnone : field.assertString = none →
      Password field rules = some "invalid field type for password validation" := by
    intro h
    simp [Password, h]
  refine ⟨hnone, fun hs hi => hnone (assertString_of_kind field hs hi), ?_, ?_, ?_, ?_, ?_, ?_⟩
  · rw [Password_eq_none_iff, containsDigits_iff, containsUppercase_iff,
      containsLowercase_iff, containsSpecialChars_iff]
  · intro h
    rw [Password_str "string" s rules rfl, if_pos h]
  · intro h0 h1 h2
    rw [← containsDigits_iff] at h2
    rw [Password_str "string" s rules rfl, if_neg (not_lt.2 h0)]
    simp [h1, h2]
  · intro h0 h1 h2 h3
    rw [← containsDigits_iff] at h1
    rw [← containsUppercase_iff] at h3
    rw [Password_str "string" s rules rfl, if_neg (not_lt.2 h0)]
    cases hd : rules.RequireDigits <;> simp_all
  · intro h0 h1 h2 h3 h4
    rw [← containsDigits_iff] at h1
    rw [← containsUppercase_iff] at h2
    rw [← containsLowercase_iff] at h4
    rw [Password_str "string" s rules rfl, if_neg (not_lt.2 h0)]
    cases hd : rules.RequireDigits <;> cases hu : rules.RequireUppercase <;> simp_all
  · intro h0 h1 h2 h3 h4 h5
    rw [← containsDigits_iff] at h1
    rw [← containsUppercase_iff] at h2
    rw [← containsLowercase_iff] at h3
    rw [← containsSpecialChars_iff] at h5
    rw [Password_str "string" s rules rfl, if_neg (not_lt.2 h0)]
    cases hd : rules.RequireDigits <;> cases hu : rules.RequireUppercase <;>
      cases hl : rules.RequireLowercase <;> simp_all

/-- The integer 42 is refused whatever the policy; `Password1` meets every check of the
default policy but the last, and the reason returned is the missing special character. -/
theorem Password_succeeds_iff_policy_met_witness :
    (Value.int .int "int" 42).assertString = none
    ∧ Password (.int .int "int" 42) customPasswordRules
      = some "invalid field type for password validation"
    ∧ DefaultPasswordRules.MinLength ≤ (("Password1".utf8ByteSize : Nat) : Int)
    ∧ (¬ ∃ c ∈ "Password1".data, c ∈ specialChars.data)
    ∧ Password (.str "string" "Password1") DefaultPasswordRules
      = some "password must contain at least one special character" :=
  ⟨by decide,
    (Password_succeeds_iff_policy_met (.int .int "int" 42) "" customPasswordRules).1
      (by decide),
    by decide, by decide,
    (Password_succeeds_iff_policy_met (.str "string" "") "Password1"
      DefaultPasswordRules).2.2.2.2.2.2.2 (by decide) (fun _ => by decide)
      (fun _ => by decide) (fun _ => by decide) (by decide) (by decide)⟩

theorem utf8ByteSize_eq_zero_iff (s : String) : s.utf8ByteSize = 0 ↔ s = "" := by
  constructor
  · intro h
    rcases s with ⟨cs⟩
    cases cs with
    | nil => rfl
    | cons c cs =>
      simp only [String.utf8ByteSize, String.utf8ByteSize.go] at h
      have := Char.utf8Size_pos c
      omega
  · rintro rfl; rfl

theorem Field_allZero_iff (fs : List Field) :
    Field.allZero fs = true ↔ ∀ f ∈ fs, f.value.isZero = true := by
  induction fs with
  | nil => simp [Field.allZero]
  | cons f fs ih =>
    cases f with
    | mk n t j e a val => simp [Field.allZero, ih, Field.value]

/-- C12. The rule `Required` fails exactly on the zero or empty value of the value's kind
and accepts every other value. On a string, slice, array, map, pointer or interface it
returns whether or not the value can be read: it fails on the empty string, on length 0, on
a nil pointer and a nil interface, and accepts the rest, a non-nil pointer to an empty value
among them. On the other kinds (boolean, number, channel, function, record) it reads the
value with `Interface`: on a value that can be read (no read-only flag) it fails exactly on
the value deeply equal to the zero value of its type (`false`, 0, a nil channel or function,
a record all of whose fields are zero); on a value reached through an unexported field, and
on the zero `Value`, a panic ends the call. -/
theorem Required_fails_iff_zero_or_empty :
    (∀ ro typ s, Required ro (.str typ s)
      = .returns (if s = "" then some "field is required and must not be empty" else none))
    ∧ (∀ ro typ len, Required ro (.slice typ len)
      = .returns
          (if len.getD 0 = 0 then some "field is required and must not be empty" else none))
    ∧ (∀ ro typ elems, Required ro (.array typ elems)
      = .returns
          (if elems.length = 0 then some "field is required and must not be empty" else none))
    ∧ (∀ ro typ len, Required ro (.map typ len)
      = .returns
          (if len.getD 0 = 0 then some "field is required and must not be empty" else none))
    ∧ (∀ ro typ elem, Required ro (.ptr typ elem)
      = .returns (if elem.isNone then some "field is required and must not be nil" else none))
    ∧ (∀ ro typ dyn, Required ro (.iface typ dyn)
      = .returns (if dyn.isNone then some "field is required and must not be nil" else none))
    ∧ (∀ typ b, Required false (.bool typ b)
      = .returns
          (if b = false then some "field is required and must not be zero value" else none))
    ∧ (∀ k typ n, Required false (.int k typ n)
      = .returns (if n = 0 then some "field is required and must not be zero value" else none))
    ∧ (∀ k typ isZero, Required false (.float k typ isZero)
      = .returns
          (if isZero = true then some "field is required and must not be zero value"
            else none))
    ∧ (∀ k typ isNil, Required false (.ref k typ isNil)
      = .returns
          (if isNil = true then some "field is required and must not be zero value" else none))
    ∧ (∀ typ fs, Required false (.struct typ fs)
      = .returns
          (if Field.allZero fs = true then some "field is required and must not be zero value"
            else none))
    ∧ (∀ fs, Field.allZero fs = true ↔ ∀ f ∈ fs, f.value.isZero = true)
    ∧ (∀ ro typ typ', Required ro (.ptr typ (some (.str typ' ""))) = .returns none)
    ∧ (∀ ro field, Required ro field = .panics ↔
        (field.Kind ∉ [Kind.string, Kind.slice, Kind.map, Kind.array, Kind.ptr, Kind.interface]
          ∧ (ro = true ∨ field.Kind = .invalid)))
    ∧ (∀ typ b, Required true (.bool typ b) = .panics)
    ∧ (∀ k typ n, Required true (.int k typ n) = .panics)
    ∧ (∀ typ fs, Required true (.struct typ fs) = .panics)
    ∧ (∀ ro field, Required ro field = .panics ∨ Required ro field = .returns none ∨
        Required ro field = .returns (some "field is required and must not be empty") ∨
        Required ro field = .returns (some "field is required and must not be nil") ∨
        Required ro field = .returns (some "field is required and must not be zero value")) := by
  refine ⟨?_, ?_, ?_, ?_, ?_, ?_, ?_, ?_, ?_, ?_, ?_, Field_allZero_iff, ?_, ?_, ?_, ?_, ?_, ?_⟩
  · intro ro typ s
    simp [Required, Value.Kind, Value.Len, utf8ByteSize_eq_zero_iff]
  · intro ro typ len
    simp [Required, Value.Kind, Value.Len]
  · intro ro typ elems
    simp [Required, Value.Kind, Value.Len]
  · intro ro typ len
    simp [Required, Value.Kind, Value.Len]
  · intro ro typ elem
    cases elem <;> simp [Required, Value.Kind, Value.IsNil]
  · intro ro typ dyn
    cases dyn <;> simp [Required, Value.Kind, Value.IsNil]
  · intro typ b
    cases b <;> simp [Required, Value.Kind, Value.isZero, Value.CanInterface]
  · intro k typ n
    cases k <;> simp [Required, Value.Kind, IntKind.toKind, Value.isZero, Value.CanInterface]
  · intro k typ z
    cases k <;> simp [Required, Value.Kind, FloatKind.toKind, Value.isZero, Value.CanInterface]
  · intro k typ z
    cases k <;> simp [Required, Value.Kind, RefKind.toKind, Value.isZero, Value.CanInterface]
  · intro typ fs
    simp [Required, Value.Kind, Value.isZero, Value.CanInterface]
  · intro ro typ typ'
    simp [Required, Value.Kind, Value.IsNil]
  · intro ro field
    cases ro <;> cases field <;>
      simp [Required, Value.Kind, Value.CanInterface, IntKind.toKind, FloatKind.toKind,
        RefKind.toKind]
    all_goals (rename_i k _ _; cases k <;> simp [IntKind.toKind, FloatKind.toKind,
        RefKind.toKind])
  · intro typ b
    simp [Required, Value.Kind, Value.CanInterface]
  · intro k typ n
    cases k <;> simp [Required, Value.Kind, IntKind.toKind, Value.CanInterface]
  · intro typ fs
    simp [Required, Value.Kind, Value.CanInterface]
  · intro ro field
    unfold Required
    split <;> split_ifs <;> simp

theorem kind_cases (field : Value) :
    (field.Kind = .string ∨ field.Kind = .slice ∨ field.Kind = .array)
    ∨ (field.Kind ≠ .string ∧ field.Kind ≠ .slice ∧ field.Kind ≠ .array) := by
  by_cases h1 : field.Kind = .string
  · exact Or.inl (Or.inl h1)
  · by_cases h2 : field.Kind = .slice
    · exact Or.inl (Or.inr (Or.inl h2))
    · by_cases h3 : field.Kind = .array
      · exact Or.inl (Or.inr (Or.inr h3))
      · exact Or.inr ⟨h1, h2, h3⟩

theorem MinLength_of_measurable (field : Value) (min : Int)
    (h : field.Kind = .string ∨ field.Kind = .slice ∨ field.Kind = .array) :
    MinLength field min =
      if (field.Len : Int) < min then
        some ("field must have a minimum length of " ++ fmtInt min ++ " characters")
      else none := by
  unfold MinLength
  rcases h with h | h | h <;> rw [h]

theorem MaxLength_of_measurable (field : Value) (max : Int)
    (h : field.Kind = .string ∨ field.Kind = .slice ∨ field.Kind = .array) :
    MaxLength field max =
      if (field.Len : Int) > max then
        some ("field must have a maximum length of " ++ fmtInt max ++ " characters")
      else none := by
  unfold MaxLength
  rcases h with h | h | h <;> rw [h]

theorem MinLength_of_other (field : Value) (min : Int)
    (h : field.Kind ≠ .string ∧ field.Kind ≠ .slice ∧ field.Kind ≠ .array) :
    MinLength field min
      = some ("unsupported type for MinLength validation: " ++ field.Kind.toString) := by
  unfold MinLength
  split <;> simp_all

theorem MaxLength_of_other (field : Value) (max : Int)
    (h : field.Kind ≠ .string ∧ field.Kind ≠ .slice ∧ field.Kind ≠ .array) :
    MaxLength field max
      = some ("unsupported type for MaxLength validation: " ++ field.Kind.toString) := by
  unfold MaxLength
  split <;> simp_all

/-- C13. The rule `MinLength` succeeds exactly when the kind is string, slice or array and
the length is at least the bound, `MaxLength` exactly when the kind is one of those and the
length is at most the bound. On those kinds a violated bound gives the length reason; on
every other kind the result is the `unsupported type` reason, whatever the bound. -/
theorem MinLength_MaxLength_succeed_iff (field : Value) (n : Int) :
    (MinLength field n = none ↔
      (field.Kind = .string ∨ field.Kind = .slice ∨ field.Kind = .array)
        ∧ n ≤ (field.Len : Int))
    ∧ (MaxLength field n = none ↔
      (field.Kind = .string ∨ field.Kind = .slice ∨ field.Kind = .array)
        ∧ (field.Len : Int) ≤ n)
    ∧ ((field.Kind = .string ∨ field.Kind = .slice ∨ field.Kind = .array) →
      (field.Len : Int) < n →
      MinLength field n
        = some ("field must have a minimum length of " ++ fmtInt n ++ " characters"))
    ∧ ((field.Kind = .string ∨ field.Kind = .slice ∨ field.Kind = .array) →
      n < (field.Len : Int) →
      MaxLength field n
        = some ("field must have a maximum length of " ++ fmtInt n ++ " characters"))
    ∧ ((field.Kind ≠ .string ∧ field.Kind ≠ .slice ∧ field.Kind ≠ .array) →
      MinLength field n
        = some ("unsupported type for MinLength validation: " ++ field.Kind.toString)
      ∧ MaxLength field n
        = some ("unsupported type for MaxLength validation: " ++ field.Kind.toString)) := by
  refine ⟨?_, ?_, ?_, ?_, ?_⟩
  · rcases kind_cases field with h | h
    · rw [MinLength_of_measurable field n h]
      simp [h, not_lt]
    · rw [MinLength_of_other field n h]
      simp [h.1, h.2.1, h.2.2]
  · rcases kind_cases field with h | h
    · rw [MaxLength_of_measurable field n h]
      simp [h, not_lt]
    · rw [MaxLength_of_other field n h]
      simp [h.1, h.2.1, h.2.2]
  · intro h hlt
    rw [MinLength_of_measurable field n h, if_pos hlt]
  · intro h hlt
    rw [MaxLength_of_measurable field n h, if_pos hlt]
  · intro h
    exact ⟨MinLength_of_other field n h, MaxLength_of_other field n h⟩

/-- A three-byte string against the bounds 5 and 2, and a map, a number and a nested record
against any bound. -/
theorem MinLength_MaxLength_succeed_iff_witness :
    MinLength (.str "string" "abc") 5
      = some "field must have a minimum length of 5 characters"
    ∧ MaxLength (.str "string" "abc") 2
      = some "field must have a maximum length of 2 characters"
    ∧ MinLength (.map "map[string]int" (some 3)) 0
      = some "unsupported type for MinLength validation: map"
    ∧ MaxLength (.int .int "int" 7) 100
      = some "unsupported type for MaxLength validation: int"
    ∧ MinLength (Address "" "") 0
      = some "unsupported type for MinLength validation: struct" :=
  ⟨(MinLength_MaxLength_succeed_iff (.str "string" "abc") 5).2.2.1 (by decide) (by decide),
    (MinLength_MaxLength_succeed_iff (.str "string" "abc") 2).2.2.2.1 (by decide)
      (by decide),
    ((MinLength_MaxLength_succeed_iff (.map "map[string]int" (some 3)) 0).2.2.2.2
      (by decide)).1,
    ((MinLength_MaxLength_succeed_iff (.int .int "int" 7) 100).2.2.2.2 (by decide)).2,
    by decide⟩

theorem Validate_of_not_struct (v : Validator) (data : Value) (hk : data.Kind ≠ .struct) :
    v.Validate data
      = .returns (some (.validationErrors
          ["unsupported type for validation: " ++ data.Kind.toString])) := by
  cases data <;> simp_all [Validator.Validate, Value.Kind]

/-- C15. For a root value whose kind is not struct (a string, a number, a slice, a map, nil,
a pointer to a record) `Validate` returns, under every schedule, an aggregate with exactly
one entry, the text `unsupported type for validation: ` followed by the kind; nothing of
the value but its kind enters the result, so no field rule is applied and no panic can end
the call. -/
theorem Validate_unsupported_root (v : Validator) (data : Value)
    (r : Outcome (Option GoError))
    (hk : data.Kind ≠ .struct) (hr : v.ValidateRun data r) :
    r = .returns (some (.validationErrors
          ["unsupported type for validation: " ++ data.Kind.toString]))
    ∧ v.Validate data = r
    ∧ (∃ res, r = .returns res ∧ (resultMessages res).length = 1
        ∧ (∀ m ∈ resultMessages res, "unsupported type for validation".data <+: m.data)) := by
  have hv := Validate_of_not_struct v data hk
  have hr' : r = .returns (some (.validationErrors
      ["unsupported type for validation: " ++ data.Kind.toString])) := by
    cases data <;> simp_all [Validator.ValidateRun, Value.Kind]
  refine ⟨hr', by rw [hv, hr'], _, hr', by simp [resultMessages], ?_⟩
  intro m hm
  simp only [resultMessages, List.mem_singleton] at hm
  subst hm
  have e : "unsupported type for validation: "
      = "unsupported type for validation" ++ ": " := by decide
  rw [e, String.append_assoc, String.data_append]
  exact List.prefix_append _ _

/-- A pointer to the invalid user of the example: one message, about the pointer. -/
theorem Validate_unsupported_root_witness :
    (Value.ptr "*main.User" (some invalidUser)).Kind ≠ .struct
    ∧ NewValidator.ValidateRun (.ptr "*main.User" (some invalidUser))
        (NewValidator.Validate (.ptr "*main.User" (some invalidUser)))
    ∧ NewValidator.Validate (.ptr "*main.User" (some invalidUser))
      = .returns (some (.validationErrors ["unsupported type for validation: ptr"]))
    ∧ NewValidator.Validate .invalid
      = .returns (some (.validationErrors ["unsupported type for validation: invalid"])) :=
  ⟨by decide, Validate_run _ _,
    (Validate_unsupported_root NewValidator (.ptr "*main.User" (some invalidUser)) _
      (by decide) (Validate_run _ _)).1,
    by decide⟩

theorem applyRule_of_unknown (v : Validator) (Name : String) (ro : Bool) (field : Value)
    (errs : ValidationErrors) (rule : String)
    (h : (SplitN2 rule '=').headD ""
      ∉ ["required", "email", "min_length", "max_length", "password"]) :
    applyRule v Name ro field errs rule = .returns errs := by
  simp only [List.mem_cons, List.mem_singleton, List.not_mem_nil, or_false, not_or] at h
  unfold applyRule
  simp only []
  rw [if_neg h.1, if_neg h.2.1, if_neg h.2.2.1, if_neg h.2.2.2.1, if_neg h.2.2.2.2]

theorem rulesLoop_append (v : Validator) (Name : String) (ro : Bool) (field : Value)
    (pre post : List String) (errs : ValidationErrors) :
    rulesLoop v Name ro field (pre ++ post) errs
      = match rulesLoop v Name ro field pre errs with
        | .panics => .panics
        | .returns errs => rulesLoop v Name ro field post errs := by
  induction pre generalizing errs with
  | nil => simp [rulesLoop]
  | cons rule pre ih =>
    simp only [List.cons_append, rulesLoop]
    cases applyRule v Name ro field errs rule with
    | panics => rfl
    | returns e => exact ih e

/-- C16. A rule invocation whose name, compared exactly, is none of `required`, `email`,
`min_length`, `max_length`, `password` adds no message and cannot panic, whether or not the
field can be read, and taking it out of the rule list of a field leaves what the other
invocations of that field come to unchanged. -/
theorem unknown_rule_silently_ignored (v : Validator) (Name : String) (ro : Bool)
    (field : Value) (errs : ValidationErrors) (rule : String) (pre post : List String)
    (h : (SplitN2 rule '=').headD ""
      ∉ ["required", "email", "min_length", "max_length", "password"]) :
    applyRule v Name ro field errs rule = .returns errs
    ∧ Invocation.messages v ⟨Name, ro, field, rule⟩ = []
    ∧ Invocation.panics ⟨Name, ro, field, rule⟩ = false
    ∧ rulesLoop v Name ro field (pre ++ rule :: post) errs
      = rulesLoop v Name ro field (pre ++ post) errs
    ∧ (∀ tag tag', Split tag ',' = pre ++ rule :: post → Split tag' ',' = pre ++ post →
        ruleMessages v Name ro tag field = ruleMessages v Name ro tag' field) := by
  have h1 := applyRule_of_unknown v Name ro field errs rule h
  have h2 : ∀ errs, rulesLoop v Name ro field (pre ++ rule :: post) errs
      = rulesLoop v Name ro field (pre ++ post) errs := by
    intro errs
    rw [rulesLoop_append, rulesLoop_append]
    cases rulesLoop v Name ro field pre errs with
    | panics => rfl
    | returns e =>
      simp only [rulesLoop]
      rw [applyRule_of_unknown v Name ro field e rule h]
  refine ⟨h1, ?_, ?_, h2 errs, ?_⟩
  · simp only [Invocation.messages]
    rw [applyRule_of_unknown v Name ro field [] rule h]
  · simp only [List.mem_cons, List.mem_singleton, List.not_mem_nil, or_false, not_or] at h
    show (decide ((SplitN2 rule '=').headD "" = "required") && _
      || decide ((SplitN2 rule '=').headD "" = "password") && _) = false
    rw [decide_eq_false h.1, decide_eq_false h.2.2.2.2]
    rfl
  · intro tag tag' ht ht'
    unfold ruleMessages
    rw [ht, ht']
    exact h2 []

/-- The empty rule of an empty specification, a name in another case, a name with a space
in front, and an unknown rule between two known ones. -/
theorem unknown_rule_silently_ignored_witness :
    ((SplitN2 "Required" '=').headD ""
      ∉ ["required", "email", "min_length", "max_length", "password"])
    ∧ applyRule NewValidator "Username" false (.str "string" "") [] "Required" = .returns []
    ∧ applyRule NewValidator "Username" false (.str "string" "") [] "" = .returns []
    ∧ applyRule NewValidator "Username" false (.str "string" "") [] " required" = .returns []
    ∧ applyRule NewValidator "Username" false (.str "string" "") [] "required"
      = .returns ["Username is required"]
    ∧ ruleMessages NewValidator "Username" false "required,unique,min_length=3"
        (.str "string" "")
      = ruleMessages NewValidator "Username" false "required,min_length=3"
        (.str "string" "") :=
  ⟨by decide,
    (unknown_rule_silently_ignored NewValidator "Username" false (.str "string" "") []
      "Required" [] [] (by decide)).1,
    by decide, by decide, by decide,
    (unknown_rule_silently_ignored NewValidator "Username" false (.str "string" "") []
      "unique" ["required"] ["min_length=3"] (by decide)).2.2.2.2 _ _ (by decide)
      (by decide)⟩

theorem JoinNewline_cons_append (a b : String) (ms : List String) :
    JoinNewline ((a ++ b) :: ms) = a ++ JoinNewline (b :: ms) := by
  cases ms with
  | nil => rfl
  | cons m ms => simp only [JoinNewline, String.append_assoc]

theorem intercalate_go_eq_JoinNewline (acc : String) (ve : List String) :
    String.intercalate.go acc "\n" ve = JoinNewline (acc :: ve) := by
  induction ve generalizing acc with
  | nil => rfl
  | cons m ms ih =>
    rw [String.intercalate.go, ih, String.append_assoc, JoinNewline_cons_append,
      JoinNewline_cons_append]
    simp only [JoinNewline, String.append_assoc]

theorem JoinNewline_append (a b : List String) (ha : a ≠ []) (hb : b ≠ []) :
    JoinNewline (a ++ b) = JoinNewline a ++ "\n" ++ JoinNewline b := by
  induction a with
  | nil => exact absurd rfl ha
  | cons x a ih =>
    cases a with
    | nil =>
      cases b with
      | nil => exact absurd rfl hb
      | cons y ys => rfl
    | cons x' a' =>
      have := ih (by simp)
      rw [List.cons_append] at this
      show x ++ "\n" ++ JoinNewline (x' :: (a' ++ b))
        = x ++ "\n" ++ JoinNewline (x' :: a') ++ "\n" ++ JoinNewline b
      rw [this]
      simp only [String.append_assoc]

/-- C17. The rendering `ValidationErrors.Error` is the messages of the entries in the order
they were appended, joined by single newlines, with nothing in front or behind and no entry
dropped: it is `strings.Join` with the separator `\n`. The rendering of a one-entry
aggregate is the entry's message, and for non-empty aggregates the rendering of `a` followed
by `b` is the rendering of `a`, a newline, and the rendering of `b`. -/
theorem Error_is_newline_join (a b : ValidationErrors) (m : String)
    (ha : a ≠ []) (hb : b ≠ []) :
    ValidationErrors.Error (a ++ b)
      = ValidationErrors.Error a ++ "\n" ++ ValidationErrors.Error b
    ∧ ValidationErrors.Error [m] = m
    ∧ ValidationErrors.Error [] = ""
    ∧ ValidationErrors.Error (m :: b) = m ++ "\n" ++ ValidationErrors.Error b
    ∧ ValidationErrors.Error [m, m] = m ++ "\n" ++ m
    ∧ (∀ ve : ValidationErrors, ValidationErrors.Error ve = String.intercalate "\n" ve) := by
  refine ⟨JoinNewline_append a b ha hb, rfl, rfl, ?_, rfl, ?_⟩
  · cases b with
    | nil => exact absurd rfl hb
    | cons y ys => rfl
  · intro ve
    cases ve with
    | nil => rfl
    | cons x xs =>
      simp only [ValidationErrors.Error, String.intercalate]
      exact (intercalate_go_eq_JoinNewline x xs).symm

/-- The two messages of the invalid user, rendered alone and merged. -/
theorem Error_is_newline_join_witness :
    (["Email must be a valid email address"] : ValidationErrors) ≠ []
    ∧ (["password must have a minimum length of 8 characters"] : ValidationErrors) ≠ []
    ∧ ValidationErrors.Error
        (["Email must be a valid email address"]
          ++ ["password must have a minimum length of 8 characters"])
      = "Email must be a valid email address\npassword must have a minimum length of 8 characters" :=
  ⟨by decide, by decide,
    (Error_is_newline_join ["Email must be a valid email address"]
      ["password must have a minimum length of 8 characters"] "" (by decide)
      (by decide)).1.trans (by decide)⟩

/-- C19. The string `héllo` has five characters and six bytes. `MaxLength` with the bound 5
refuses it with the reason `maximum length of 5 characters`, `MinLength` with the bound 6
accepts it, and the length check of `Password` with minimum length 6 passes: the three
measure bytes. On a string of ASCII characters the two counts agree. -/
theorem length_rules_count_bytes :
    "héllo".length = 5
    ∧ (Value.str "string" "héllo").Len = 6
    ∧ MaxLength (.str "string" "héllo") 5
      = some "field must have a maximum length of 5 characters"
    ∧ MinLength (.str "string" "héllo") 6 = none
    ∧ Password (.str "string" "héllo")
        { MinLength := 6, RequireDigits := false, RequireUppercase := false,
          RequireLowercase := false, RequireSpecialChars := false } = none
    ∧ MaxLength (.str "string" "hello") 5 = none
    ∧ MinLength (.str "string" "hello") 6
      = some "field must have a minimum length of 6 characters" := by
  decide

/-- C20. The rule `Password` is monotone in the policy: when `Q` asks for no more than `P`
(a minimum length not above that of `P`, and only requirements that `P` has as well), every
value `P` accepts is accepted by `Q`. In particular what the default policy accepts is
accepted by every policy whose minimum length is at most 8. -/
theorem Password_monotone_in_policy (field : Value) (P Q : PasswordRules)
    (hlen : Q.MinLength ≤ P.MinLength)
    (hd : Q.RequireDigits = true → P.RequireDigits = true)
    (hu : Q.RequireUppercase = true → P.RequireUppercase = true)
    (hl : Q.RequireLowercase = true → P.RequireLowercase = true)
    (hs : Q.RequireSpecialChars = true → P.RequireSpecialChars = true)
    (h : Password field P = none) :
    Password field Q = none
    ∧ (∀ Q' : PasswordRules, Q'.MinLength ≤ 8 →
        Password field DefaultPasswordRules = none → Password field Q' = none) := by
  have mono : ∀ (P Q : PasswordRules), Q.MinLength ≤ P.MinLength →
      (Q.RequireDigits = true → P.RequireDigits = true) →
      (Q.RequireUppercase = true → P.RequireUppercase = true) →
      (Q.RequireLowercase = true → P.RequireLowercase = true) →
      (Q.RequireSpecialChars = true → P.RequireSpecialChars = true) →
      Password field P = none → Password field Q = none := by
    intro P Q hlen hd hu hl hs h
    unfold Password at h ⊢
    cases ha : field.assertString with
    | none => simp [ha] at h
    | some s =>
      simp only [ha] at h ⊢
      have hstr := Password_eq_none_iff s P
      have hstrQ := Password_eq_none_iff s Q
      rw [Password_str "string" s P rfl] at hstr
      rw [Password_str "string" s Q rfl] at hstrQ
      obtain ⟨h0, h1, h2, h3, h4⟩ := hstr.1 h
      exact hstrQ.2 ⟨le_trans hlen h0, fun q => h1 (hd q), fun q => h2 (hu q),
        fun q => h3 (hl q), fun q => h4 (hs q)⟩
  refine ⟨mono P Q hlen hd hu hl hs h, ?_⟩
  intro Q' hq hdef
  exact mono DefaultPasswordRules Q' hq (fun _ => rfl) (fun _ => rfl) (fun _ => rfl)
    (fun _ => rfl) hdef

/-- The valid password of the example, accepted by the default policy, under a policy that
asks for six bytes and a digit only. -/
theorem Password_monotone_in_policy_witness :
    Password (.str "string" "Password123@#12") DefaultPasswordRules = none
    ∧ Password (.str "string" "Password123@#12")
        { MinLength := 6, RequireDigits := true, RequireUppercase := false,
          RequireLowercase := false, RequireSpecialChars := false } = none :=
  ⟨by decide,
    (Password_monotone_in_policy (.str "string" "Password123@#12") DefaultPasswordRules
      { MinLength := 6, RequireDigits := true, RequireUppercase := false,
        RequireLowercase := false, RequireSpecialChars := false }
      (by decide) (by decide) (by decide) (by decide) (by decide) (by decide)).1⟩

theorem Matches_empty_iff (cs : List Char) : Regex.Matches .empty cs ↔ False := by
  constructor
  · intro h; cases h
  · intro h; exact h.elim

theorem Matches_eps_iff (cs : List Char) : Regex.Matches .eps cs ↔ cs = [] := by
  constructor
  · intro h; cases h; rfl
  · rintro rfl; exact Regex.Matches.eps

theorem Matches_cls_iff (p : Char → Bool) (cs : List Char) :
    Regex.Matches (.cls p) cs ↔ ∃ c, cs = [c] ∧ p c = true := by
  constructor
  · intro h
    cases h with
    | cls hp => exact ⟨_, rfl, hp⟩
  · rintro ⟨c, rfl, hp⟩
    exact Regex.Matches.cls hp

theorem Matches_alt_iff (a b : Regex) (cs : List Char) :
    Regex.Matches (.alt a b) cs ↔ Regex.Matches a cs ∨ Regex.Matches b cs := by
  constructor
  · intro h
    cases h with
    | altLeft h => exact Or.inl h
    | altRight h => exact Or.inr h
  · rintro (h | h)
    · exact Regex.Matches.altLeft h
    · exact Regex.Matches.altRight h

theorem Matches_concat_iff (a b : Regex) (cs : List Char) :
    Regex.Matches (.concat a b) cs
      ↔ ∃ x y, cs = x ++ y ∧ Regex.Matches a x ∧ Regex.Matches b y := by
  constructor
  · intro h
    cases h with
    | concat ha hb => exact ⟨_, _, rfl, ha, hb⟩
  · rintro ⟨x, y, rfl, ha, hb⟩
    exact Regex.Matches.concat ha hb

theorem Matches_star_cons_inv {r : Regex} {l : List Char} (h : Regex.Matches r l) :
    ∀ (a : Regex) (c : Char) (cs : List Char), r = .star a → l = c :: cs →
      ∃ x y, cs = x ++ y ∧ Regex.Matches a (c :: x) ∧ Regex.Matches (.star a) y := by
  induction h with
  | eps => intro a c cs hr; cases hr
  | cls _ => intro a c cs hr; cases hr
  | altLeft _ _ => intro a c cs hr; cases hr
  | altRight _ _ => intro a c cs hr; cases hr
  | concat _ _ _ _ => intro a c cs hr; cases hr
  | starNil => intro a c cs _ hl; cases hl
  | @starCons a' x y hx hy _ ihy =>
    intro a c cs hr hl
    cases hr
    cases x with
    | nil => exact ihy _ c cs rfl hl
    | cons d x' =>
      simp only [List.cons_append, List.cons.injEq] at hl
      obtain ⟨rfl, rfl⟩ := hl
      exact ⟨x', y, rfl, hx, hy⟩

theorem Matches_star_cons_iff (a : Regex) (c : Char) (cs : List Char) :
    Regex.Matches (.star a) (c :: cs)
      ↔ ∃ x y, cs = x ++ y ∧ Regex.Matches a (c :: x) ∧ Regex.Matches (.star a) y := by
  constructor
  · intro h
    exact Matches_star_cons_inv h a c cs rfl rfl
  · rintro ⟨x, y, rfl, hx, hy⟩
    exact Regex.Matches.starCons hx hy

theorem nullable_iff_Matches_nil (r : Regex) : r.nullable = true ↔ Regex.Matches r [] := by
  induction r with
  | empty => simp [Regex.nullable, Matches_empty_iff]
  | eps => simp [Regex.nullable, Matches_eps_iff]
  | cls p => simp [Regex.nullable, Matches_cls_iff]
  | alt a b iha ihb => simp [Regex.nullable, Matches_alt_iff, iha, ihb]
  | concat a b iha ihb =>
    simp only [Regex.nullable, Bool.and_eq_true, iha, ihb, Matches_concat_iff]
    constructor
    · rintro ⟨ha, hb⟩
      exact ⟨[], [], rfl, ha, hb⟩
    · rintro ⟨x, y, hxy, ha, hb⟩
      have h := List.append_eq_nil.1 hxy.symm
      rw [h.1] at ha
      rw [h.2] at hb
      exact ⟨ha, hb⟩
  | star a _ =>
    simp only [Regex.nullable, true_iff]
    exact Regex.Matches.starNil

theorem Matches_deriv_iff (r : Regex) :
    ∀ (c : Char) (cs : List Char),
      Regex.Matches (r.deriv c) cs ↔ Regex.Matches r (c :: cs) := by
  induction r with
  | empty => intro c cs; simp [Regex.deriv, Matches_empty_iff]
  | eps => intro c cs; simp [Regex.deriv, Matches_empty_iff, Matches_eps_iff]
  | cls p =>
    intro c cs
    simp only [Regex.deriv, Matches_cls_iff]
    by_cases hp : p c = true
    · rw [if_pos hp, Matches_eps_iff]
      constructor
      · rintro rfl
        exact ⟨c, rfl, hp⟩
      · rintro ⟨d, hd, _⟩
        simp only [List.cons.injEq] at hd
        exact hd.2
    · rw [if_neg hp, Matches_empty_iff, false_iff]
      rintro ⟨d, hd, hpd⟩
      simp only [List.cons.injEq] at hd
      rw [← hd.1] at hpd
      exact hp hpd
  | alt a b iha ihb =>
    intro c cs
    simp only [Regex.deriv, Matches_alt_iff, iha, ihb]
  | concat a b iha ihb =>
    intro c cs
    have key : Regex.Matches (.concat a b) (c :: cs)
        ↔ (∃ x y, cs = x ++ y ∧ Regex.Matches a (c :: x) ∧ Regex.Matches b y)
          ∨ (Regex.Matches a [] ∧ Regex.Matches b (c :: cs)) := by
      rw [Matches_concat_iff]
      constructor
      · rintro ⟨x, y, hxy, ha, hb⟩
        cases x with
        | nil =>
          right
          simp only [List.nil_append] at hxy
          rw [← hxy] at hb
          exact ⟨ha, hb⟩
        | cons d x' =>
          left
          simp only [List.cons_append, List.cons.injEq] at hxy
          obtain ⟨rfl, rfl⟩ := hxy
          exact ⟨x', y, rfl, ha, hb⟩
      · rintro (⟨x, y, rfl, ha, hb⟩ | ⟨ha, hb⟩)
        · exact ⟨c :: x, y, rfl, ha, hb⟩
        · exact ⟨[], c :: cs, rfl, ha, hb⟩
    rw [key]
    simp only [Regex.deriv]
    by_cases hn : a.nullable = true
    · rw [if_pos hn]
      simp only [Matches_alt_iff, Matches_concat_iff, iha, ihb]
      have := (nullable_iff_Matches_nil a).1 hn
      simp [this]
    · rw [if_neg hn]
      simp only [Matches_concat_iff, iha]
      have : ¬ Regex.Matches a [] := fun h => hn ((nullable_iff_Matches_nil a).2 h)
      simp [this]
  | star a iha =>
    intro c cs
    simp only [Regex.deriv, Matches_concat_iff, iha, Matches_star_cons_iff]

theorem MatchString_iff_Matches (r : Regex) (s : String) :
    r.MatchString s = true ↔ Regex.Matches r s.data := by
  unfold Regex.MatchString
  generalize s.data = cs
  induction cs generalizing r with
  | nil => simpa using nullable_iff_Matches_nil r
  | cons c cs ih =>
    simp only [List.foldl_cons]
    rw [ih, Matches_deriv_iff]

theorem Matches_star_cls_iff (p : Char → Bool) (cs : List Char) :
    Regex.Matches (.star (.cls p)) cs ↔ ∀ c ∈ cs, p c = true := by
  induction cs with
  | nil => simp [Regex.Matches.starNil]
  | cons c cs ih =>
    rw [Matches_star_cons_iff]
    constructor
    · rintro ⟨x, y, rfl, hx, hy⟩
      obtain ⟨d, hd, hp⟩ := (Matches_cls_iff p _).1 hx
      simp only [List.cons.injEq] at hd
      obtain ⟨rfl, rfl⟩ := hd
      intro e he
      rcases List.mem_cons.1 he with rfl | he
      · exact hp
      · exact ih.1 (by simpa using hy) e he
    · intro h
      refine ⟨[], cs, rfl, (Matches_cls_iff p _).2 ⟨c, rfl, h c (List.mem_cons_self _ _)⟩,
        ih.2 (fun e he => h e (List.mem_cons_of_mem _ he))⟩

theorem Matches_plus_cls_iff (p : Char → Bool) (cs : List Char) :
    Regex.Matches (Regex.plus (.cls p)) cs ↔ cs ≠ [] ∧ ∀ c ∈ cs, p c = true := by
  unfold Regex.plus
  rw [Matches_concat_iff]
  constructor
  · rintro ⟨x, y, rfl, hx, hy⟩
    obtain ⟨d, rfl, hp⟩ := (Matches_cls_iff p _).1 hx
    refine ⟨by simp, ?_⟩
    intro e he
    rcases List.mem_cons.1 he with rfl | he
    · exact hp
    · exact (Matches_star_cls_iff p y).1 hy e he
  · rintro ⟨hne, h⟩
    cases cs with
    | nil => exact absurd rfl hne
    | cons c cs =>
      exact ⟨[c], cs, rfl, (Matches_cls_iff p _).2 ⟨c, rfl, h c (List.mem_cons_self _ _)⟩,
        (Matches_star_cls_iff p cs).2 (fun e he => h e (List.mem_cons_of_mem _ he))⟩

theorem Matches_atLeastTwo_cls_iff (p : Char → Bool) (cs : List Char) :
    Regex.Matches (Regex.atLeastTwo (.cls p)) cs ↔ 2 ≤ cs.length ∧ ∀ c ∈ cs, p c = true := by
  unfold Regex.atLeastTwo
  rw [Matches_concat_iff]
  constructor
  · rintro ⟨x, y, rfl, hx, hy⟩
    obtain ⟨d, rfl, hp⟩ := (Matches_cls_iff p _).1 hx
    have hy' := (Matches_plus_cls_iff p y).1 hy
    refine ⟨?_, ?_⟩
    · cases y with
      | nil => exact absurd rfl hy'.1
      | cons e y => simp
    · intro e he
      rcases List.mem_cons.1 he with rfl | he
      · exact hp
      · exact hy'.2 e he
  · rintro ⟨hlen, h⟩
    cases cs with
    | nil => simp at hlen
    | cons c cs =>
      refine ⟨[c], cs, rfl, (Matches_cls_iff p _).2 ⟨c, rfl, h c (List.mem_cons_self _ _)⟩,
        (Matches_plus_cls_iff p cs).2 ⟨?_, fun e he => h e (List.mem_cons_of_mem _ he)⟩⟩
      rintro rfl
      simp at hlen

theorem Matches_chr_iff (c : Char) (cs : List Char) :
    Regex.Matches (Regex.chr c) cs ↔ cs = [c] := by
  unfold Regex.chr
  rw [Matches_cls_iff]
  constructor
  · rintro ⟨d, rfl, hd⟩
    simp only [decide_eq_true_eq] at hd
    rw [hd]
  · rintro rfl
    exact ⟨c, rfl, by simp⟩

theorem Matches_emailRegex_iff (cs : List Char) :
    Regex.Matches emailRegex cs ↔ EmailShape cs := by
  unfold emailRegex EmailShape
  simp only [Matches_concat_iff, Matches_plus_cls_iff, Matches_atLeastTwo_cls_iff,
    Matches_chr_iff]
  constructor
  · rintro ⟨loc, r1, rfl, ⟨hl1, hl2⟩, at', r2, rfl, rfl, dom, r3, rfl, ⟨hd1, hd2⟩,
      dot, tld, rfl, rfl, ht1, ht2⟩
    exact ⟨loc, dom, tld, by simp, hl1, hl2, hd1, hd2, ht1, ht2⟩
  · rintro ⟨loc, dom, tld, rfl, hl1, hl2, hd1, hd2, ht1, ht2⟩
    exact ⟨loc, _, rfl, ⟨hl1, hl2⟩, ['@'], _, rfl, rfl, dom, _, rfl, ⟨hd1, hd2⟩,
      ['.'], tld, rfl, rfl, ht1, ht2⟩

theorem Email_eq_none_iff (field : Value) :
    Email field = none ↔ EmailShape field.Str.data := by
  unfold Email
  simp only []
  rw [← Matches_emailRegex_iff, ← MatchString_iff_Matches]
  cases emailRegex.MatchString field.Str <;> simp

theorem not_mem_of_class (p : Char → Bool) (x : Char) (hx : p x = false) (cs : List Char)
    (h : ∀ c ∈ cs, p c = true) : x ∉ cs := by
  intro hmem
  have := h x hmem
  rw [hx] at this
  exact absurd this (by simp)

theorem EmailShape_count_at (cs : List Char) (h : EmailShape cs) : cs.count '@' = 1 := by
  obtain ⟨loc, dom, tld, rfl, _, hl, _, hd, _, ht⟩ := h
  have h1 : loc.count '@' = 0 :=
    List.count_eq_zero.2 (not_mem_of_class isLocalChar '@' (by decide) loc hl)
  have h2 : dom.count '@' = 0 :=
    List.count_eq_zero.2 (not_mem_of_class isDomainChar '@' (by decide) dom hd)
  have h3 : tld.count '@' = 0 :=
    List.count_eq_zero.2 (not_mem_of_class isLetter '@' (by decide) tld ht)
  simp [List.count_append, List.count_cons, h1, h2, h3]

/-- C14. The rule `Email` accepts a string exactly when it is a non-empty local part over
`[A-Za-z0-9._%+-]`, then `@`, then a non-empty domain over `[A-Za-z0-9.-]`, then `.`, then
at least two ASCII letters. Every accepted string holds exactly one `@` and ends with a `.`
followed by at least two letters; the empty string and every string without `@` are
refused. -/
theorem Email_succeeds_iff_shape (typ s : String) :
    (Email (.str typ s) = none ↔
      ∃ loc domain tld : List Char,
        s.data = loc ++ '@' :: (domain ++ '.' :: tld)
        ∧ loc ≠ [] ∧ (∀ c ∈ loc, isLocalChar c = true)
        ∧ domain ≠ [] ∧ (∀ c ∈ domain, isDomainChar c = true)
        ∧ 2 ≤ tld.length ∧ (∀ c ∈ tld, isLetter c = true))
    ∧ (Email (.str typ s) = none ↔
      ∃ loc domain tld : String,
        s = loc ++ "@" ++ domain ++ "." ++ tld
        ∧ loc ≠ "" ∧ (∀ c ∈ loc.data, isLocalChar c = true)
        ∧ domain ≠ "" ∧ (∀ c ∈ domain.data, isDomainChar c = true)
        ∧ 2 ≤ tld.length ∧ (∀ c ∈ tld.data, isLetter c = true))
    ∧ (Email (.str typ s) = none → s.data.count '@' = 1)
    ∧ (Email (.str typ s) = none →
      ∃ front tld : List Char, s.data = front ++ '.' :: tld ∧ 2 ≤ tld.length
        ∧ ∀ c ∈ tld, isLetter c = true)
    ∧ Email (.str typ "") ≠ none
    ∧ ('@' ∉ s.data → Email (.str typ s) ≠ none) := by
  have hiff : Email (.str typ s) = none ↔ EmailShape s.data := Email_eq_none_iff (.str typ s)
  refine ⟨hiff, ?_, ?_, ?_, ?_, ?_⟩
  · rw [hiff]
    constructor
    · rintro ⟨loc, dom, tld, hs, hl1, hl2, hd1, hd2, ht1, ht2⟩
      refine ⟨String.mk loc, String.mk dom, String.mk tld, ?_, ?_, hl2, ?_, hd2, ht1, ht2⟩
      · apply String.ext
        simp [String.data_append, hs]
      · intro h
        exact hl1 (congrArg String.data h)
      · intro h
        exact hd1 (congrArg String.data h)
    · rintro ⟨loc, dom, tld, rfl, hl1, hl2, hd1, hd2, ht1, ht2⟩
      refine ⟨loc.data, dom.data, tld.data, ?_, ?_, hl2, ?_, hd2, ht1, ht2⟩
      · simp [String.data_append]
      · intro h
        exact hl1 (String.ext h)
      · intro h
        exact hd1 (String.ext h)
  · intro h
    exact EmailShape_count_at _ (hiff.1 h)
  · intro h
    obtain ⟨loc, dom, tld, hs, _, _, _, _, ht1, ht2⟩ := hiff.1 h
    exact ⟨loc ++ '@' :: dom, tld, by simp [hs], ht1, ht2⟩
  · have hempty : emailRegex.MatchString "" = false := by decide
    simp [Email, Value.Str, hempty]
  · intro hat h
    obtain ⟨loc, dom, tld, hs, _⟩ := hiff.1 h
    apply hat
    rw [hs]
    simp

/-- The addresses of the example: `user@example.com` has the shape and is accepted,
`invalid-email` holds no `@` and is refused. -/
theorem Email_succeeds_iff_shape_witness :
    Email (.str "string" "user@example.com") = none
    ∧ "user@example.com".data.count '@' = 1
    ∧ '@' ∉ "invalid-email".data
    ∧ Email (.str "string" "invalid-email") ≠ none :=
  ⟨by decide,
    (Email_succeeds_iff_shape "string" "user@example.com").2.2.1 (by decide),
    by decide,
    (Email_succeeds_iff_shape "string" "invalid-email").2.2.2.2.2 (by decide)⟩

theorem state_append_eq (σ : ValidatorState) (errs : ValidationErrors) (msg : String)
    (h : σ.locked = false) : σ.append errs msg = some (errs ++ [msg], σ) := by
  cases σ with
  | mk locked custom =>
    simp only at h
    subst h
    simp [ValidatorState.append, ValidatorState.Lock, ValidatorState.Unlock, bind, pure]

theorem state_parsePasswordRules_eq (σ : ValidatorState) (options : String)
    (h : σ.locked = false) :
    σ.parsePasswordRules options = some (σ.validator.parsePasswordRules options, σ) := by
  cases σ with
  | mk locked custom =>
    simp only at h
    subst h
    simp [ValidatorState.parsePasswordRules, ValidatorState.Lock, ValidatorState.Unlock,
      bind, pure, Validator.parsePasswordRules, ValidatorState.validator]

theorem state_applyRule_eq (σ : ValidatorState) (Name : String) (ro : Bool) (field : Value)
    (errs : ValidationErrors) (rule : String) (h : σ.locked = false) :
    σ.applyRule Name ro field errs rule
      = (applyRule σ.validator Name ro field errs rule).withState σ := by
  unfold ValidatorState.applyRule applyRule
  simp only []
  split_ifs
  · rcases Required ro field with (_ | _) | _ <;> simp [state_append_eq, h, Outcome.withState]
  · cases Email field <;> simp [state_append_eq, h, Outcome.withState]
  · cases (Atoi _).2 <;> cases MinLength field _ <;>
      simp [state_append_eq, h, bind, Option.bind, Outcome.withState]
  · cases (Atoi _).2 <;> cases MaxLength field _ <;>
      simp [state_append_eq, h, bind, Option.bind, Outcome.withState]
  · rw [state_parsePasswordRules_eq σ _ h]
    generalize σ.validator.parsePasswordRules _ = p
    rcases p with ⟨pr, e⟩
    cases e <;> cases hpw : Password field pr <;>
      simp [hpw, state_append_eq, h, bind, Option.bind, Outcome.withState]
  · rw [state_parsePasswordRules_eq σ _ h]
    generalize σ.validator.parsePasswordRules _ = p
    rcases p with ⟨pr, e⟩
    cases e <;> simp [state_append_eq, h, bind, Option.bind, Outcome.withState]
  · rfl

theorem state_rulesLoop_eq (Name : String) (ro : Bool) (field : Value) (rules : List String) :
    ∀ (errs : ValidationErrors) (σ : ValidatorState), σ.locked = false →
      ValidatorState.rulesLoop Name ro field rules errs σ
        = (rulesLoop σ.validator Name ro field rules errs).withState σ := by
  induction rules with
  | nil => intro errs σ _; rfl
  | cons rule rest ih =>
    intro errs σ h
    simp only [ValidatorState.rulesLoop, state_applyRule_eq σ Name ro field errs rule h,
      rulesLoop]
    cases applyRule σ.validator Name ro field errs rule with
    | panics => rfl
    | returns e => exact ih e σ h


mutual
theorem state_structValidate_eq :
    ∀ (sticky : Bool) (fs : List Field) (errs : ValidationErrors) (σ : ValidatorState),
      σ.locked = false →
      ValidatorState.structValidate sticky fs errs σ
        = (σ.validator.structValidate sticky fs errs).withState σ
  | sticky, [], errs, σ, _ => by
    simp [ValidatorState.structValidate, Validator.structValidate, Outcome.withState]
  | sticky, f :: rest, errs, σ, h => by
    rw [ValidatorState.structValidate, state_fieldTask_eq sticky f errs σ h,
      Validator.structValidate]
    cases σ.validator.fieldTask sticky f errs with
    | panics => rfl
    | returns e => exact state_structValidate_eq sticky rest e σ h
theorem state_fieldTask_eq :
    ∀ (sticky : Bool) (f : Field) (errs : ValidationErrors) (σ : ValidatorState),
      σ.locked = false →
      ValidatorState.fieldTask sticky f errs σ
        = (σ.validator.fieldTask sticky f errs).withState σ
  | sticky, .mk Name tag j exported embedded (.struct typ fs), errs, σ, h => by
    rw [ValidatorState.fieldTask, state_rulesLoop_eq Name _ _ _ errs σ h, Validator.fieldTask]
    cases rulesLoop σ.validator Name (sticky || ! exported) (.struct typ fs) (Split tag ',')
        errs with
    | panics => rfl
    | returns e =>
      simp only [Outcome.withState]
      rw [state_structValidate_eq _ fs e σ h, structValidate_eq]
      split_ifs <;> simp [Outcome.withState]
  | sticky, .mk Name tag j exported embedded .invalid, errs, σ, h => by
    simp [ValidatorState.fieldTask, state_rulesLoop_eq Name _ _ _ errs σ h,
      Validator.fieldTask]
  | sticky, .mk Name tag j exported embedded (.bool _ _), errs, σ, h => by
    simp [ValidatorState.fieldTask, state_rulesLoop_eq Name _ _ _ errs σ h,
      Validator.fieldTask]
  | sticky, .mk Name tag j exported embedded (.int _ _ _), errs, σ, h => by
    simp [ValidatorState.fieldTask, state_rulesLoop_eq Name _ _ _ errs σ h,
      Validator.fieldTask]
  | sticky, .mk Name tag j exported embedded (.float _ _ _), errs, σ, h => by
    simp [ValidatorState.fieldTask, state_rulesLoop_eq Name _ _ _ errs σ h,
      Validator.fieldTask]
  | sticky, .mk Name tag j exported embedded (.str _ _), errs, σ, h => by
    simp [ValidatorState.fieldTask, state_rulesLoop_eq Name _ _ _ errs σ h,
      Validator.fieldTask]
  | sticky, .mk Name tag j exported embedded (.slice _ _), errs, σ, h => by
    simp [ValidatorState.fieldTask, state_rulesLoop_eq Name _ _ _ errs σ h,
      Validator.fieldTask]
  | sticky, .mk Name tag j exported embedded (.map _ _), errs, σ, h => by
    simp [ValidatorState.fieldTask, state_rulesLoop_eq Name _ _ _ errs σ h,
      Validator.fieldTask]
  | sticky, .mk Name tag j exported embedded (.array _ _), errs, σ, h => by
    simp [ValidatorState.fieldTask, state_rulesLoop_eq Name _ _ _ errs σ h,
      Validator.fieldTask]
  | sticky, .mk Name tag j exported embedded (.ptr _ _), errs, σ, h => by
    simp [ValidatorState.fieldTask, state_rulesLoop_eq Name _ _ _ errs σ h,
      Validator.fieldTask]
  | sticky, .mk Name tag j exported embedded (.iface _ _), errs, σ, h => by
    simp [ValidatorState.fieldTask, state_rulesLoop_eq Name _ _ _ errs σ h,
      Validator.fieldTask]
  | sticky, .mk Name tag j exported embedded (.ref _ _ _), errs, σ, h => by
    simp [ValidatorState.fieldTask, state_rulesLoop_eq Name _ _ _ errs σ h,
      Validator.fieldTask]
end

theorem state_Validate_eq (σ : ValidatorState) (data : Value) (h : σ.locked = false) :
    σ.Validate data = (σ.validator.Validate data).withState σ := by
  cases data <;> simp only [ValidatorState.Validate, Validator.Validate, Outcome.withState]
  rename_i typ fs
  rw [state_structValidate_eq false fs [] σ h, structValidate_eq]
  split_ifs <;> simp [Outcome.withState]

theorem ValidateRun_messages_perm (v : Validator) (data : Value)
    (r₁ r₂ : Outcome (Option GoError))
    (h₁ : v.ValidateRun data r₁) (h₂ : v.ValidateRun data r₂) :
    (r₁ = .panics ∧ r₂ = .panics)
    ∨ ∃ res₁ res₂, r₁ = .returns res₁ ∧ r₂ = .returns res₂
        ∧ (resultMessages res₁).Perm (resultMessages res₂) := by
  cases data
  case struct typ fs =>
    have k₁ := ValidateRun_struct v typ fs r₁ h₁
    have k₂ := ValidateRun_struct v typ fs r₂ h₂
    split_ifs at k₁ k₂
    · exact Or.inl ⟨k₁, k₂⟩
    · obtain ⟨c₁, -, hp₁, rfl⟩ := k₁
      obtain ⟨c₂, -, hp₂, rfl⟩ := k₂
      refine Or.inr ⟨_, _, rfl, rfl, ?_⟩
      rw [resultMessages_ite, resultMessages_ite]
      exact hp₁.trans hp₂.symm
  all_goals
    simp only [Validator.ValidateRun] at h₁ h₂
    rw [h₁, h₂]
    exact Or.inr ⟨_, _, rfl, rfl, List.Perm.refl _⟩

/-- C18. A call of `Validate` on a validator whose mutex is free leaves the validator as it
found it whenever it returns: the stored custom policy is what it was (the resolver writes
inline sub-options into a local copy) and the mutex is free again. The call returns unless a
rule invocation panics, which none does on a root that is no record or on a record all of
whose fields are exported; when an invocation reads a field reached through an unexported
one, a panic ends the call and there is no state after it. What the call returns is what
the dispatch computes from the stored policy, so a second call on the same record returns
the same error, and under any two schedules the messages are the same up to order. -/
theorem Validate_leaves_validator_unchanged (σ : ValidatorState) (data : Value)
    (options : String) (h : σ.locked = false) :
    σ.Validate data = (σ.validator.Validate data).withState σ
    ∧ (∀ r σ', σ.Validate data = some (r, σ') →
        σ' = σ ∧ σ'.customPasswordRules = σ.customPasswordRules ∧ σ'.locked = false)
    ∧ ((∀ typ fs, data = .struct typ fs → ∀ i ∈ invocations false fs, i.panics = false) →
        ∃ r, σ.validator.Validate data = .returns r ∧ σ.Validate data = some (r, σ))
    ∧ (∀ typ fs, data = .struct typ fs → Field.allExported fs = true →
        ∃ r, σ.Validate data = some (r, σ))
    ∧ (∀ typ fs, data = .struct typ fs → (∃ i ∈ invocations false fs, i.panics = true) →
        σ.Validate data = none)
    ∧ σ.parsePasswordRules options = some (σ.validator.parsePasswordRules options, σ)
    ∧ (∀ r₁ σ₁ r₂ σ₂, σ.Validate data = some (r₁, σ₁) → σ₁.Validate data = some (r₂, σ₂) →
        r₂ = r₁ ∧ σ₂ = σ)
    ∧ (∀ r₁ r₂, σ.validator.ValidateRun data r₁ → σ.validator.ValidateRun data r₂ →
        (r₁ = .panics ∧ r₂ = .panics)
        ∨ ∃ res₁ res₂, r₁ = .returns res₁ ∧ r₂ = .returns res₂
            ∧ (resultMessages res₁).Perm (resultMessages res₂)) := by
  have hv := state_Validate_eq σ data h
  have hret : ∀ r σ', σ.Validate data = some (r, σ') →
      σ.validator.Validate data = .returns r ∧ σ' = σ := by
    intro r σ' hr
    rw [hv] at hr
    cases hval : σ.validator.Validate data with
    | panics => simp [hval, Outcome.withState] at hr
    | returns a =>
      simp only [hval, Outcome.withState, Option.some.injEq, Prod.mk.injEq] at hr
      exact ⟨by rw [hr.1], hr.2.symm⟩
  have hnp : (∀ typ fs, data = .struct typ fs → ∀ i ∈ invocations false fs, i.panics = false) →
      ∃ r, σ.validator.Validate data = .returns r ∧ σ.Validate data = some (r, σ) := by
    intro hread
    rw [hv]
    cases data
    case struct typ fs =>
      rw [Validate_struct_eq, if_neg ((any_panics_eq_false_iff _).2 (hread typ fs rfl))]
      exact ⟨_, rfl, rfl⟩
    all_goals exact ⟨_, rfl, rfl⟩
  refine ⟨hv, ?_, hnp, ?_, ?_, state_parsePasswordRules_eq σ options h, ?_, ?_⟩
  · intro r σ' hr
    obtain ⟨-, rfl⟩ := hret r σ' hr
    exact ⟨rfl, rfl, h⟩
  · intro typ fs hd hex
    subst hd
    obtain ⟨r, -, hr⟩ := hnp (by
      intro typ' fs' e
      injection e with _ e2
      subst e2
      exact no_panics_of_allExported _ hex)
    exact ⟨r, hr⟩
  · intro typ fs hd hp
    subst hd
    rw [hv, Validate_struct_eq, if_pos ((any_panics_iff _).2 hp)]
    rfl
  · intro r₁ σ₁ r₂ σ₂ h₁ h₂
    obtain ⟨e₁, rfl⟩ := hret r₁ σ₁ h₁
    obtain ⟨e₂, rfl⟩ := hret r₂ σ₂ h₂
    rw [e₁] at e₂
    injection e₂ with e₂
    exact ⟨e₂.symm, rfl⟩
  · intro r₁ r₂ h₁ h₂
    exact ValidateRun_messages_perm _ data r₁ r₂ h₁ h₂

/-- A validator that carries the custom policy of the example and a record whose password
field has an inline sub-option: the call returns and the policy after it is the custom
policy. With the same field unexported, a panic ends the call. -/
theorem Validate_leaves_validator_unchanged_witness :
    ({ locked := false, customPasswordRules := some customPasswordRules }
      : ValidatorState).locked = false
    ∧ ValidatorState.Validate
        { locked := false, customPasswordRules := some customPasswordRules }
        (.struct "main.Account"
          [Field.mk "Password" "password=min_length=8" "" true false (.str "string" "weak")])
      = some (some (.validationErrors
          ["password must have a minimum length of 8 characters"]),
          { locked := false, customPasswordRules := some customPasswordRules })
    ∧ ValidatorState.Validate
        { locked := false, customPasswordRules := some customPasswordRules }
        (.struct "main.account"
          [Field.mk "password" "password=min_length=8" "" false false (.str "string" "weak")])
      = none :=
  ⟨rfl,
    (Validate_leaves_validator_unchanged
      { locked := false, customPasswordRules := some customPasswordRules }
      (.struct "main.Account"
        [Field.mk "Password" "password=min_length=8" "" true false (.str "string" "weak")])
      "" rfl).1.trans (by decide),
    by decide⟩

end GoValid
